import Mathlib

/-
Shallow embedding of `src/DVrouter.py`, a single node of a distance-vector
routing protocol.  Python dicts are modelled as insertion-ordered association
lists (first binding wins on lookup; reachable states never hold duplicate
keys).  Costs are natural numbers; the protocol's finite infinity sentinel is
the constant 16 from the source.  Exceptions raised and caught inside
`handle_packet` (a `TypeError` on adding a non-numeric advertised cost) are
modelled with `Except`, carrying the partially mutated state, exactly as the
Python object keeps mutations made before the exception.
-/

/-- Node addresses, strings in the source. -/
abbrev Addr := String

/-- Local port numbers. -/
abbrev Port := Nat

/-- The finite infinity sentinel: `self.INFINITY = 16` in `DVrouter.__init__`. -/
def INFINITY : Nat := 16

/-- Association-list lookup, mirroring Python dict lookup. -/
def alookup {α β : Type} [DecidableEq α] : List (α × β) → α → Option β
  | [], _ => none
  | (k, v) :: rest, k2 => if k = k2 then some v else alookup rest k2

/-- Association-list update `d[k] = v`: replace the binding in place if the key
is present (Python dicts keep insertion order on overwrite), else append. -/
def aset {α β : Type} [DecidableEq α] : List (α × β) → α → β → List (α × β)
  | [], k, v => [(k, v)]
  | (k2, v2) :: rest, k, v =>
    if k2 = k then (k, v) :: rest else (k2, v2) :: aset rest k v

/-- Association-list deletion `del d[k]`. -/
def aerase {α β : Type} [DecidableEq α] (l : List (α × β)) (k : α) : List (α × β) :=
  l.filter (fun x => if x.1 = k then false else true)

/-- A JSON cost value inside a received advertisement: a number, or a
non-numeric value whose addition to an int raises a `TypeError` in the source. -/
inductive CostVal where
  | num (n : Nat)
  | bad
  deriving DecidableEq

/-- Wire content of a routing packet: either text that `json.loads` rejects, or
a parsed destination-to-cost dictionary. -/
inductive Content where
  | unparseable
  | parsed (pairs : List (Addr × CostVal))
  deriving DecidableEq

/-- The packet fields `handle_packet` reads. -/
structure Packet where
  is_traceroute : Bool
  src_addr : Addr
  dst_addr : Addr
  content : Content
  deriving DecidableEq

/-- An externally visible send: forwarding a data packet out a port, or a
routing update (destination address and poisoned vector) out a port. -/
inductive Msg where
  | fwd (port : Port) (pkt : Packet)
  | dvUpdate (port : Port) (dst : Addr) (vec : List (Addr × Nat))
  deriving DecidableEq

/-- The mutable state of `DVrouter`: `self.addr`, `self.dv`,
`self.neighbors`, `self.forwarding_table`, `self.neighbor_dvs`,
`self.heartbeat_time`, `self.last_time`. -/
structure NodeState where
  addr : Addr
  dv : List (Addr × Nat × Option Port)
  neighbors : List (Port × Addr × Nat)
  forwarding_table : List (Addr × Port)
  neighbor_dvs : List (Addr × List (Addr × CostVal))
  heartbeat_time : Int
  last_time : Int
  deriving DecidableEq

/-- `DVrouter.__init__`. -/
def initState (addr : Addr) (heartbeat_time : Int) : NodeState :=
  { addr := addr
    dv := [(addr, 0, none)]
    neighbors := []
    forwarding_table := []
    neighbor_dvs := []
    heartbeat_time := heartbeat_time
    last_time := 0 }

/-- The paired mutation `self.dv[d] = (c, p); self.forwarding_table[d] = p`
used at every route installation site of the source. -/
def installRoute (s : NodeState) (d : Addr) (c : Nat) (p : Port) : NodeState :=
  { s with dv := aset s.dv d (c, some p)
           forwarding_table := aset s.forwarding_table d p }

/-- The paired mutation `del self.forwarding_table[d]; self.dv[d] = (INFINITY, None)`
used at every route invalidation site of the source. -/
def invalidateDest (s : NodeState) (d : Addr) : NodeState :=
  { s with dv := aset s.dv d (INFINITY, none)
           forwarding_table := aerase s.forwarding_table d }

/-- One iteration of the alternate-path search loop shared by
`handle_packet` (lines 62-81) and `handle_remove_link` (lines 132-146):
given the running best `(best_cost, best_port)` and one `neighbors` item
`(alt_port, alt_neighbor, alt_cost)`, skip an excluded port, prefer a direct
link to `dest`, else consult the cached advertisement of that neighbor.
Adding a cached non-numeric cost raises a `TypeError`, modelled by `throw`. -/
def findAltStep (cache : List (Addr × List (Addr × CostVal))) (dest : Addr)
    (excl : Option Port) (acc : Nat × Option Port) (nb : Port × Addr × Nat) :
    Except Unit (Nat × Option Port) :=
  if some nb.1 = excl then pure acc
  else if nb.2.1 = dest then
    if nb.2.2 < acc.1 then pure (nb.2.2, some nb.1) else pure acc
  else
    match alookup cache nb.2.1 with
    | none => pure acc
    | some ndv =>
      match alookup ndv dest with
      | none => pure acc
      | some (CostVal.num v) =>
        if nb.2.2 + v < acc.1 then pure (nb.2.2 + v, some nb.1) else pure acc
      | some CostVal.bad => throw ()

/-- The full alternate-path search: fold `findAltStep` over the `neighbors`
dict starting from `best_cost = INFINITY`, `best_port = None`. -/
def findAlt (nbrs : List (Port × Addr × Nat)) (cache : List (Addr × List (Addr × CostVal)))
    (dest : Addr) (excl : Option Port) : Except Unit (Nat × Option Port) :=
  List.foldlM (findAltStep cache dest excl) (INFINITY, none) nbrs

/-- Body of the `for dest, cost in neighbor_dv.items()` loop of
`handle_packet` (lines 38-91), for one `(dest, cost)` pair.  The accumulator
is `(state, dv_changed)`.  An uncaught-at-this-level exception returns the
state as mutated so far via `Except.error`. -/
def processPair (port : Port) (acc : NodeState × Bool) (pr : Addr × CostVal) :
    Except (NodeState × Bool) (NodeState × Bool) :=
  let s := acc.1
  match alookup s.neighbors port with
  | none => pure acc
  | some nb =>
    match pr.2 with
    | CostVal.bad => throw acc
    | CostVal.num adv =>
      let newCost := nb.2 + adv
      match alookup s.dv pr.1 with
      | none =>
        if newCost < INFINITY then pure (installRoute s pr.1 newCost port, true)
        else pure acc
      | some cur =>
        if newCost < cur.1 then
          if newCost < INFINITY then pure (installRoute s pr.1 newCost port, true)
          else pure acc
        else if cur.2 = some port ∧ newCost ≠ cur.1 then
          if INFINITY ≤ newCost then
            let s1 := invalidateDest s pr.1
            match findAlt s1.neighbors s1.neighbor_dvs pr.1 (some port) with
            | Except.error _ => throw (s1, acc.2)
            | Except.ok (bc, some bp) => pure (installRoute s1 pr.1 bc bp, true)
            | Except.ok (_, none) => pure (s1, true)
          else pure (installRoute s pr.1 newCost port, true)
        else pure acc

/-- The whole relaxation loop of `handle_packet`; the third component is
`false` when a `TypeError` aborted the loop (to be caught by the handler's
`except` clause, which then skips the broadcast). -/
def processPairs (port : Port) : List (Addr × CostVal) → NodeState × Bool →
    NodeState × Bool × Bool
  | [], acc => (acc.1, acc.2, true)
  | pr :: rest, acc =>
    match processPair port acc pr with
    | Except.ok acc2 => processPairs port rest acc2
    | Except.error acc2 => (acc2.1, acc2.2, false)

/-- One advertised pair of `send_dv`'s loop body (lines 181-191): for the DV
binding `x = (dest, cost, outport)` of a node addressed `a`, advertise 0 for
the node itself, the direct link cost for the neighbor `naddr` itself,
`INFINITY` when the route runs back through `port` (poison reverse), and the
table cost otherwise. -/
def poisonEntry (a naddr : Addr) (port : Port) (dcost : Nat)
    (x : Addr × Nat × Option Port) : Addr × Nat :=
  if x.1 = a then (x.1, 0)
  else if x.1 = naddr then (x.1, dcost)
  else if x.2.2 = some port then (x.1, INFINITY)
  else (x.1, x.2.1)

/-- The poisoned vector `send_dv` builds for the neighbor `naddr` with direct
link cost `dcost` reached through `port` (lines 181-191). -/
def build_poisoned (s : NodeState) (port : Port) (naddr : Addr) (dcost : Nat) :
    List (Addr × Nat) :=
  s.dv.map (poisonEntry s.addr naddr port dcost)

/-- `DVrouter.send_dv`: look the port up in `neighbors` (a `KeyError` is
impossible at the source's call sites, modelled as sending nothing) and send
the poisoned vector to that neighbor. -/
def send_dv (s : NodeState) (port : Port) : List Msg :=
  match alookup s.neighbors port with
  | none => []
  | some nb => [Msg.dvUpdate port nb.1 (build_poisoned s port nb.1 nb.2)]

/-- `DVrouter.broadcast_dv`: `send_dv` to every port in `neighbors`. -/
def broadcast_dv (s : NodeState) : List Msg :=
  List.foldr (fun nb acc => send_dv s nb.1 ++ acc) [] s.neighbors

/-- `DVrouter.handle_packet`. -/
def handle_packet (s : NodeState) (port : Port) (pkt : Packet) :
    NodeState × List Msg :=
  if pkt.is_traceroute then
    match alookup s.forwarding_table pkt.dst_addr with
    | some p => (s, [Msg.fwd p pkt])
    | none => (s, [])
  else
    match pkt.content with
    | Content.unparseable => (s, [])
    | Content.parsed pairs =>
      let s0 : NodeState :=
        { s with neighbor_dvs := aset s.neighbor_dvs pkt.src_addr pairs }
      let r := processPairs port pairs (s0, false)
      if r.2.2 && r.2.1 then (r.1, broadcast_dv r.1) else (r.1, [])

/-- `DVrouter.handle_new_link`: record the link, unconditionally overwrite the
DV and forwarding entries for the endpoint, broadcast, and send the vector
directly to the new neighbor. -/
def handle_new_link (s : NodeState) (port : Port) (endpoint : Addr) (cost : Nat) :
    NodeState × List Msg :=
  let s1 := installRoute
    { s with neighbors := aset s.neighbors port (endpoint, cost) } endpoint cost port
  (s1, broadcast_dv s1 ++ send_dv s1 port)

/-- The second loop of `handle_remove_link` (lines 128-151): for each
invalidated destination, search an alternate path over the remaining links and
install it when one of finite cost exists.  An uncaught `TypeError` from a
non-numeric cached cost aborts the handler with the state mutated so far
(third component `false`). -/
def recomputeAll (inv : List Addr) (acc : NodeState × Bool) : NodeState × Bool × Bool :=
  match inv with
  | [] => (acc.1, acc.2, true)
  | d :: rest =>
    match findAlt acc.1.neighbors acc.1.neighbor_dvs d none with
    | Except.error _ => (acc.1, acc.2, false)
    | Except.ok (bc, some bp) => recomputeAll rest (installRoute acc.1 d bc bp, true)
    | Except.ok (_, none) => recomputeAll rest acc

/-- Lines 108-113 of the source: drop the link on `port` and the cached
advertisement of the removed neighbor `rn`. -/
def removeLinkPrep (s : NodeState) (port : Port) (rn : Addr) : NodeState :=
  { s with neighbors := aerase s.neighbors port
           neighbor_dvs := aerase s.neighbor_dvs rn }

/-- The destinations currently routed through `port` (lines 119-120). -/
def invalidList (s : NodeState) (port : Port) : List Addr :=
  s.dv.filterMap (fun x => if x.2.2 = some port then some x.1 else none)

/-- `DVrouter.handle_remove_link`. -/
def handle_remove_link (s : NodeState) (port : Port) : NodeState × List Msg :=
  match alookup s.neighbors port with
  | none => (s, [])
  | some nb =>
    let s1 := removeLinkPrep s port nb.1
    let inv := invalidList s1 port
    let s2 := inv.foldl invalidateDest s1
    let r := recomputeAll inv (s2, !inv.isEmpty)
    if r.2.2 && r.2.1 then (r.1, broadcast_dv r.1) else (r.1, [])

/-- `DVrouter.handle_time`. -/
def handle_time (s : NodeState) (time_ms : Int) : NodeState × List Msg :=
  if s.heartbeat_time ≤ time_ms - s.last_time then
    ({ s with last_time := time_ms }, broadcast_dv { s with last_time := time_ms })
  else (s, [])

/-- The five external events the harness delivers to the node, with numeric
advertised costs (the well-formed case; raw content is handled by
`handle_packet` directly). -/
inductive Event where
  | routing (port : Port) (src : Addr) (adv : List (Addr × Nat))
  | data (port : Port) (dst : Addr)
  | linkUp (port : Port) (endpoint : Addr) (cost : Nat)
  | linkDown (port : Port)
  | timer (t : Int)

/-- Apply one event to the node state, discarding the emitted messages. -/
def applyEvent (s : NodeState) (e : Event) : NodeState :=
  match e with
  | Event.routing port src adv =>
    (handle_packet s port
      { is_traceroute := false, src_addr := src, dst_addr := s.addr,
        content := Content.parsed (adv.map (fun x => (x.1, CostVal.num x.2))) }).1
  | Event.data port dst =>
    (handle_packet s port
      { is_traceroute := true, src_addr := s.addr, dst_addr := dst,
        content := Content.unparseable }).1
  | Event.linkUp port endpoint cost => (handle_new_link s port endpoint cost).1
  | Event.linkDown port => (handle_remove_link s port).1
  | Event.timer t => (handle_time s t).1

/-- The state reached from a fresh node after a sequence of events. -/
def run (addr : Addr) (hb : Int) (es : List Event) : NodeState :=
  es.foldl applyEvent (initState addr hb)

/-- Convenience constructor for a routing-update packet as received. -/
def mkRouting (src : Addr) (dst : Addr) (c : Content) : Packet :=
  { is_traceroute := false, src_addr := src, dst_addr := dst, content := c }

/-- All costs of all cached advertisements are numeric (true in every state
reachable under well-formed advertisements). -/
def CacheWF (cache : List (Addr × List (Addr × CostVal))) : Prop :=
  ∀ x ∈ cache, ∀ y ∈ x.2, y.2 ≠ CostVal.bad

instance (cache : List (Addr × List (Addr × CostVal))) : Decidable (CacheWF cache) := by
  unfold CacheWF
  infer_instance

/-- The candidate cost, if any, that one `neighbors` item contributes to the
alternate-path search for `dest` (exclusion, direct link, or cached route). -/
def candOf (cache : List (Addr × List (Addr × CostVal))) (dest : Addr)
    (excl : Option Port) (nb : Port × Addr × Nat) : Option (Nat × Port) :=
  if some nb.1 = excl then none
  else if nb.2.1 = dest then some (nb.2.2, nb.1)
  else
    match alookup cache nb.2.1 with
    | none => none
    | some ndv =>
      match alookup ndv dest with
      | some (CostVal.num v) => some (nb.2.2 + v, nb.1)
      | _ => none

/-- All candidate alternate routes to `dest` offered by the link table and the
neighbor cache. -/
def candCosts (nbrs : List (Port × Addr × Nat)) (cache : List (Addr × List (Addr × CostVal)))
    (dest : Addr) (excl : Option Port) : List (Nat × Port) :=
  nbrs.filterMap (candOf cache dest excl)

/-- The forwarding port a DV entry induces: `viaPort` when the entry exists,
nothing otherwise. -/
def viaOf (o : Option (Nat × Option Port)) : Option Port :=
  match o with
  | some e => e.2
  | none => none

/-- Forwarding/DV consistency: for every destination the forwarding-table
binding exists iff the DV entry has a non-null `viaPort`, and then equals it. -/
def Consistent (s : NodeState) : Prop :=
  ∀ d : Addr, alookup s.forwarding_table d = viaOf (alookup s.dv d)

/-- Every DV entry with cost `INFINITY` has a null `viaPort`. -/
def InfNullM (s : NodeState) : Prop :=
  ∀ x ∈ s.dv, x.2.1 = INFINITY → x.2.2 = none

/-- Every DV cost is at most `INFINITY` and every link cost is at most
`INFINITY`. -/
def Bounded (s : NodeState) : Prop :=
  (∀ x ∈ s.dv, x.2.1 ≤ INFINITY) ∧ (∀ x ∈ s.neighbors, x.2.2 ≤ INFINITY)

/-- The node's own DV entry is `(0, None)` (stated over all bindings so that
it is stable under association-list reasoning). -/
def SelfOk (s : NodeState) : Prop :=
  (s.addr, 0, (none : Option Port)) ∈ s.dv ∧
  ∀ x ∈ s.dv, x.1 = s.addr → x.2 = (0, none)


/-- Event filter: link-up events never carry cost exactly `INFINITY`. -/
def evCostNeInf (e : Event) : Bool :=
  match e with
  | Event.linkUp _ _ c => decide (c ≠ INFINITY)
  | _ => true

/-- Event filter: link-up events carry cost at most `INFINITY`. -/
def evCostLeInf (e : Event) : Bool :=
  match e with
  | Event.linkUp _ _ c => decide (c ≤ INFINITY)
  | _ => true

/-- Event filter: no link-up event attaches the node's own address `a` as the
far endpoint of a link. -/
def evNotSelf (a : Addr) (e : Event) : Bool :=
  match e with
  | Event.linkUp _ ep _ => decide (ep ≠ a)
  | _ => true


/-- Modelled from the spec (4.1 step 1): the same relaxation loop body as
`processPair`, but with the candidate cost computed "saturating at INFINITY"
as the spec words it.  This definition follows the spec's words, not the
source; it exists only to compare against the source's `processPair`, which
uses the plain unsaturated sum. -/
def processPairSat (port : Port) (acc : NodeState × Bool) (pr : Addr × CostVal) :
    Except (NodeState × Bool) (NodeState × Bool) :=
  let s := acc.1
  match alookup s.neighbors port with
  | none => pure acc
  | some nb =>
    match pr.2 with
    | CostVal.bad => throw acc
    | CostVal.num adv =>
      let newCost := min (nb.2 + adv) INFINITY
      match alookup s.dv pr.1 with
      | none =>
        if newCost < INFINITY then pure (installRoute s pr.1 newCost port, true)
        else pure acc
      | some cur =>
        if newCost < cur.1 then
          if newCost < INFINITY then pure (installRoute s pr.1 newCost port, true)
          else pure acc
        else if cur.2 = some port ∧ newCost ≠ cur.1 then
          if INFINITY ≤ newCost then
            let s1 := invalidateDest s pr.1
            match findAlt s1.neighbors s1.neighbor_dvs pr.1 (some port) with
            | Except.error _ => throw (s1, acc.2)
            | Except.ok (bc, some bp) => pure (installRoute s1 pr.1 bc bp, true)
            | Except.ok (_, none) => pure (s1, true)
          else pure (installRoute s pr.1 newCost port, true)
        else pure acc

/-- Modelled from the spec: the relaxation loop of the saturating variant. -/
def processPairsSat (port : Port) : List (Addr × CostVal) → NodeState × Bool →
    NodeState × Bool × Bool
  | [], acc => (acc.1, acc.2, true)
  | pr :: rest, acc =>
    match processPairSat port acc pr with
    | Except.ok acc2 => processPairsSat port rest acc2
    | Except.error acc2 => (acc2.1, acc2.2, false)

/-- Modelled from the spec: `handle_packet` with the saturating relaxation. -/
def handle_packet_sat (s : NodeState) (port : Port) (pkt : Packet) :
    NodeState × List Msg :=
  if pkt.is_traceroute then
    match alookup s.forwarding_table pkt.dst_addr with
    | some p => (s, [Msg.fwd p pkt])
    | none => (s, [])
  else
    match pkt.content with
    | Content.unparseable => (s, [])
    | Content.parsed pairs =>
      let s0 : NodeState :=
        { s with neighbor_dvs := aset s.neighbor_dvs pkt.src_addr pairs }
      let r := processPairsSat port pairs (s0, false)
      if r.2.2 && r.2.1 then (r.1, broadcast_dv r.1) else (r.1, [])

/-- Example state: node A with one link, port 0 to B at cost 1. -/
def exLinkB : NodeState := run "A" 5 [Event.linkUp 0 "B" 1]

/-- Example state: node A with links to B (port 0, cost 1) and C (port 1,
cost 5), after advertisements from both; `dv["D"] = (3, some 0)`. -/
def exRich : NodeState := run "A" 5 [Event.linkUp 0 "B" 1, Event.linkUp 1 "C" 5,
  Event.routing 0 "B" [("B", 0), ("D", 2)], Event.routing 1 "C" [("C", 0), ("D", 1)]]

/-- Example state with a DV cost above the sentinel: link-up on port 0 to B at
cost 20 followed by a link-change of port 0 to C at cost 1 leaves
`dv["B"] = (20, some 0)` while `neighbors[0] = ("C", 1)`. -/
def exHighCost : NodeState := run "A" 5 [Event.linkUp 0 "B" 20, Event.linkUp 0 "C" 1]

/-- Example state with a DV cost exactly the sentinel routed through port 0. -/
def exAtInf : NodeState := run "A" 5 [Event.linkUp 0 "B" 16, Event.linkUp 0 "C" 1]

theorem alookup_aset_self {α β : Type} [DecidableEq α] (l : List (α × β)) (k : α) (v : β) :
    alookup (aset l k v) k = some v := by
  induction l with
  | nil => simp [aset, alookup]
  | cons hd t ih =>
    obtain ⟨k1, v1⟩ := hd
    by_cases hk : k1 = k
    · simp [aset, hk, alookup]
    · simp [aset, hk, alookup, ih]

theorem alookup_aset_ne {α β : Type} [DecidableEq α] (l : List (α × β)) (k k2 : α) (v : β)
    (h : k ≠ k2) : alookup (aset l k v) k2 = alookup l k2 := by
  induction l with
  | nil => simp [aset, alookup, h]
  | cons hd t ih =>
    obtain ⟨k1, v1⟩ := hd
    by_cases hk : k1 = k
    · subst hk
      simp [aset, alookup, h]
    · simp [aset, hk, alookup, ih]

theorem alookup_aerase_self {α β : Type} [DecidableEq α] (l : List (α × β)) (k : α) :
    alookup (aerase l k) k = none := by
  induction l with
  | nil => simp [aerase, alookup]
  | cons hd t ih =>
    obtain ⟨k1, v1⟩ := hd
    by_cases hk : k1 = k
    · simpa [aerase, hk] using ih
    · simpa [aerase, hk, alookup] using ih

theorem alookup_aerase_ne {α β : Type} [DecidableEq α] (l : List (α × β)) (k k2 : α)
    (h : k2 ≠ k) : alookup (aerase l k) k2 = alookup l k2 := by
  induction l with
  | nil => simp [aerase, alookup]
  | cons hd t ih =>
    obtain ⟨k1, v1⟩ := hd
    by_cases hk : k1 = k
    · subst hk
      have hne : k1 ≠ k2 := fun hc => h hc.symm
      simpa [aerase, alookup, hne] using ih
    · by_cases hk2 : k1 = k2
      · subst hk2
        simp [aerase, hk, alookup]
      · simpa [aerase, hk, alookup, hk2] using ih

theorem alookup_mem {α β : Type} [DecidableEq α] (l : List (α × β)) (k : α) (v : β)
    (h : alookup l k = some v) : (k, v) ∈ l := by
  induction l with
  | nil => simp [alookup] at h
  | cons hd t ih =>
    obtain ⟨k1, v1⟩ := hd
    by_cases hk : k1 = k
    · subst hk
      simp only [alookup, if_pos rfl] at h
      cases h
      exact List.mem_cons_self _ _
    · simp only [alookup, if_neg hk] at h
      exact List.mem_cons_of_mem _ (ih h)

theorem mem_aset {α β : Type} [DecidableEq α] (l : List (α × β)) (k : α) (v : β)
    (x : α × β) (h : x ∈ aset l k v) : x = (k, v) ∨ x ∈ l := by
  induction l with
  | nil => simpa [aset] using h
  | cons hd t ih =>
    obtain ⟨k1, v1⟩ := hd
    by_cases hk : k1 = k
    · simp only [aset, if_pos hk] at h
      rcases List.mem_cons.mp h with h | h
      · exact Or.inl h
      · exact Or.inr (List.mem_cons_of_mem _ h)
    · simp only [aset, if_neg hk] at h
      rcases List.mem_cons.mp h with h | h
      · exact Or.inr (h ▸ List.mem_cons_self _ _)
      · rcases ih h with h | h
        · exact Or.inl h
        · exact Or.inr (List.mem_cons_of_mem _ h)

theorem mem_aset_of_ne {α β : Type} [DecidableEq α] (l : List (α × β)) (k : α) (v : β)
    (x : α × β) (hx : x ∈ l) (hk : x.1 ≠ k) : x ∈ aset l k v := by
  induction l with
  | nil => simp at hx
  | cons hd t ih =>
    obtain ⟨k1, v1⟩ := hd
    by_cases hh : k1 = k
    · simp only [aset, if_pos hh]
      rcases List.mem_cons.mp hx with h | h
      · exfalso
        apply hk
        rw [h]
        exact hh
      · exact List.mem_cons_of_mem _ h
    · simp only [aset, if_neg hh]
      rcases List.mem_cons.mp hx with h | h
      · exact h ▸ List.mem_cons_self _ _
      · exact List.mem_cons_of_mem _ (ih h)

theorem mem_aerase {α β : Type} [DecidableEq α] (l : List (α × β)) (k : α)
    (x : α × β) (h : x ∈ aerase l k) : x ∈ l :=
  List.mem_of_mem_filter h

theorem alookup_isSome_of_mem {α β : Type} [DecidableEq α] (l : List (α × β)) (k : α) (v : β)
    (h : (k, v) ∈ l) : ∃ v2, alookup l k = some v2 ∧ (k, v2) ∈ l := by
  induction l with
  | nil => simp at h
  | cons hd t ih =>
    obtain ⟨k1, v1⟩ := hd
    by_cases hk : k1 = k
    · subst hk
      refine ⟨v1, by simp [alookup], List.mem_cons_self _ _⟩
    · rcases List.mem_cons.mp h with h1 | h1
      · exact absurd (by simpa using (congrArg Prod.fst h1).symm) hk
      · rcases ih h1 with ⟨v2, hv2, hm⟩
        exact ⟨v2, by simp [alookup, hk, hv2], List.mem_cons_of_mem _ hm⟩

theorem findAltStep_cases (cache : List (Addr × List (Addr × CostVal))) (dest : Addr)
    (excl : Option Port) (acc : Nat × Option Port) (nb : Port × Addr × Nat) :
    findAltStep cache dest excl acc nb =
      Except.ok (match candOf cache dest excl nb with
                 | none => acc
                 | some cp => if cp.1 < acc.1 then (cp.1, some cp.2) else acc) ∨
    (findAltStep cache dest excl acc nb = Except.error () ∧
      ∃ ndv, alookup cache nb.2.1 = some ndv ∧ alookup ndv dest = some CostVal.bad) := by
  obtain ⟨ap, an, ac⟩ := nb
  simp only [findAltStep, candOf]
  by_cases h1 : some ap = excl
  · left
    simp [h1, pure, Except.pure]
  · simp only [if_neg h1]
    by_cases h2 : an = dest
    · left
      by_cases h3 : ac < acc.1 <;> simp [h2, h3, pure, Except.pure]
    · simp only [if_neg h2]
      cases hc : alookup cache an with
      | none =>
        left
        simp [pure, Except.pure]
      | some ndv =>
        cases hd : alookup ndv dest with
        | none =>
          left
          simp [hd, pure, Except.pure]
        | some cv =>
          cases cv with
          | num v =>
            left
            by_cases h3 : ac + v < acc.1 <;> simp [hd, h3, pure, Except.pure]
          | bad =>
            right
            refine ⟨by simp [hd, throw, throwThe, MonadExceptOf.throw], ndv, rfl, hd⟩

theorem findAlt_fold_spec (cache : List (Addr × List (Addr × CostVal))) (dest : Addr)
    (excl : Option Port) :
    ∀ (nbrs : List (Port × Addr × Nat)) (b : Nat) (po : Option Port),
    b ≤ INFINITY → (po = none → b = INFINITY) → (∀ p, po = some p → b < INFINITY) →
    ∀ r, List.foldlM (findAltStep cache dest excl) (b, po) nbrs = Except.ok r →
      r.1 ≤ b ∧
      (∀ c ∈ candCosts nbrs cache dest excl, r.1 ≤ c.1) ∧
      ((r.2 = po ∧ r.1 = b) ∨ ∃ p, r.2 = some p ∧ (r.1, p) ∈ candCosts nbrs cache dest excl) ∧
      (r.2 = none → r.1 = INFINITY) ∧ (∀ p, r.2 = some p → r.1 < INFINITY) := by
  intro nbrs
  induction nbrs with
  | nil =>
    intro b po hb hponone hposome r hr
    have hrb : r = (b, po) := by
      have h2 : (Except.ok (b, po) : Except Unit (Nat × Option Port)) = Except.ok r := by
        simpa [List.foldlM, pure, Except.pure] using hr
      simpa using h2.symm
    subst hrb
    exact ⟨le_refl _, by simp [candCosts], Or.inl ⟨rfl, rfl⟩, hponone, hposome⟩
  | cons nb rest ih =>
    intro b po hb hponone hposome r hr
    have hr2 : (findAltStep cache dest excl (b, po) nb >>= fun b2 =>
        List.foldlM (findAltStep cache dest excl) b2 rest) = Except.ok r := hr
    rcases findAltStep_cases cache dest excl (b, po) nb with hstep | ⟨hstep, _⟩
    · cases hcand : candOf cache dest excl nb with
      | none =>
        rw [hcand] at hstep
        have hstep2 : findAltStep cache dest excl (b, po) nb = Except.ok (b, po) := hstep
        have hr3 : List.foldlM (findAltStep cache dest excl) (b, po) rest = Except.ok r := by
          rw [hstep2] at hr2
          exact hr2
        rcases ih b po hb hponone hposome r hr3 with ⟨h1, h2, h3, h4, h5⟩
        refine ⟨h1, ?_, ?_, h4, h5⟩
        · intro c hc
          apply h2
          simpa [candCosts, List.filterMap_cons, hcand] using hc
        · rcases h3 with h3 | ⟨p, hp, hm⟩
          · exact Or.inl h3
          · refine Or.inr ⟨p, hp, ?_⟩
            simpa [candCosts, List.filterMap_cons, hcand] using hm
      | some cp =>
        rw [hcand] at hstep
        have hstep2 : findAltStep cache dest excl (b, po) nb =
            Except.ok (if cp.1 < b then (cp.1, some cp.2) else (b, po)) := hstep
        by_cases hlt : cp.1 < b
        · rw [if_pos hlt] at hstep2
          have hr3 : List.foldlM (findAltStep cache dest excl) (cp.1, some cp.2) rest =
              Except.ok r := by
            rw [hstep2] at hr2
            exact hr2
          have hcp16 : cp.1 < INFINITY := lt_of_lt_of_le hlt hb
          rcases ih cp.1 (some cp.2) (le_of_lt hcp16) (fun h => by cases h)
            (fun p hp => hcp16) r hr3 with ⟨h1, h2, h3, h4, h5⟩
          refine ⟨le_trans h1 (le_of_lt hlt), ?_, ?_, h4, h5⟩
          · intro c hc
            have hc2 : c = cp ∨ c ∈ candCosts rest cache dest excl := by
              simpa [candCosts, List.filterMap_cons, hcand] using hc
            rcases hc2 with rfl | hc2
            · exact h1
            · exact h2 c hc2
          · rcases h3 with ⟨hpo, hcost⟩ | ⟨p, hp, hm⟩
            · refine Or.inr ⟨cp.2, hpo, ?_⟩
              rw [hcost]
              simp [candCosts, List.filterMap_cons, hcand]
            · refine Or.inr ⟨p, hp, ?_⟩
              simp only [candCosts, List.filterMap_cons, hcand]
              exact List.mem_cons_of_mem _ hm
        · rw [if_neg hlt] at hstep2
          have hr3 : List.foldlM (findAltStep cache dest excl) (b, po) rest = Except.ok r := by
            rw [hstep2] at hr2
            exact hr2
          rcases ih b po hb hponone hposome r hr3 with ⟨h1, h2, h3, h4, h5⟩
          refine ⟨h1, ?_, ?_, h4, h5⟩
          · intro c hc
            have hc2 : c = cp ∨ c ∈ candCosts rest cache dest excl := by
              simpa [candCosts, List.filterMap_cons, hcand] using hc
            rcases hc2 with rfl | hc2
            · exact le_trans h1 (le_of_not_lt hlt)
            · exact h2 c hc2
          · rcases h3 with h3 | ⟨p, hp, hm⟩
            · exact Or.inl h3
            · refine Or.inr ⟨p, hp, ?_⟩
              simp only [candCosts, List.filterMap_cons, hcand]
              exact List.mem_cons_of_mem _ hm
    · rw [hstep] at hr2
      exact absurd hr2 (by simp [Bind.bind, Except.bind])

theorem findAlt_spec (nbrs : List (Port × Addr × Nat))
    (cache : List (Addr × List (Addr × CostVal))) (dest : Addr) (excl : Option Port)
    (r : Nat × Option Port) (h : findAlt nbrs cache dest excl = Except.ok r) :
    (∀ c ∈ candCosts nbrs cache dest excl, r.1 ≤ c.1) ∧
    (r.2 = none → r.1 = INFINITY) ∧
    (∀ p, r.2 = some p → r.1 < INFINITY ∧ (r.1, p) ∈ candCosts nbrs cache dest excl) := by
  rcases findAlt_fold_spec cache dest excl nbrs INFINITY none (le_refl _)
    (fun _ => rfl) (fun p hp => by cases hp) r h with ⟨h1, h2, h3, h4, h5⟩
  refine ⟨h2, h4, ?_⟩
  intro p hp
  rcases h3 with ⟨hpo, _⟩ | ⟨p2, hp2, hm⟩
  · rw [hp] at hpo
    cases hpo
  · rw [hp] at hp2
    cases hp2
    exact ⟨h5 p hp, hm⟩

theorem findAlt_lt (nbrs : List (Port × Addr × Nat))
    (cache : List (Addr × List (Addr × CostVal))) (dest : Addr) (excl : Option Port)
    (bc : Nat) (bp : Port) (h : findAlt nbrs cache dest excl = Except.ok (bc, some bp)) :
    bc < INFINITY :=
  ((findAlt_spec nbrs cache dest excl (bc, some bp) h).2.2 bp rfl).1

theorem foldlM_findAltStep_ok_of_wf (cache : List (Addr × List (Addr × CostVal)))
    (dest : Addr) (excl : Option Port) (hwf : CacheWF cache) :
    ∀ (nbrs : List (Port × Addr × Nat)) (acc : Nat × Option Port),
    ∃ r, List.foldlM (findAltStep cache dest excl) acc nbrs = Except.ok r := by
  intro nbrs
  induction nbrs with
  | nil => exact fun acc => ⟨acc, rfl⟩
  | cons nb rest ih =>
    intro acc
    rcases findAltStep_cases cache dest excl acc nb with hstep | ⟨_, ndv, hc, hd⟩
    · rcases ih (match candOf cache dest excl nb with
        | none => acc
        | some cp => if cp.1 < acc.1 then (cp.1, some cp.2) else acc) with ⟨r, hr⟩
      refine ⟨r, ?_⟩
      show (findAltStep cache dest excl acc nb >>= fun b2 =>
        List.foldlM (findAltStep cache dest excl) b2 rest) = Except.ok r
      rw [hstep]
      exact hr
    · exfalso
      exact hwf _ (alookup_mem _ _ _ hc) _ (alookup_mem _ _ _ hd) rfl

theorem findAlt_ok_of_wf (nbrs : List (Port × Addr × Nat))
    (cache : List (Addr × List (Addr × CostVal))) (dest : Addr) (excl : Option Port)
    (hwf : CacheWF cache) : ∃ r, findAlt nbrs cache dest excl = Except.ok r :=
  foldlM_findAltStep_ok_of_wf cache dest excl hwf nbrs (INFINITY, none)

theorem processPair_shape (port : Port) (acc : NodeState × Bool) (pr : Addr × CostVal) :
    ∃ acc2 : NodeState × Bool,
      (processPair port acc pr = Except.ok acc2 ∨
       processPair port acc pr = Except.error acc2) ∧
      (acc2.1 = acc.1 ∨
       (∃ c, c < INFINITY ∧ acc2.1 = installRoute acc.1 pr.1 c port) ∨
       acc2.1 = invalidateDest acc.1 pr.1 ∨
       (∃ bc bp, bc < INFINITY ∧
         acc2.1 = installRoute (invalidateDest acc.1 pr.1) pr.1 bc bp)) ∧
      (acc2.2 = acc.2 ∨ acc2.2 = true) := by
  cases hnb : alookup acc.1.neighbors port with
  | none =>
    refine ⟨acc, Or.inl ?_, Or.inl rfl, Or.inl rfl⟩
    simp [processPair, hnb, pure, Except.pure]
  | some nb =>
    cases hv : pr.2 with
    | bad =>
      refine ⟨acc, Or.inr ?_, Or.inl rfl, Or.inl rfl⟩
      simp [processPair, hnb, hv, throw, throwThe, MonadExceptOf.throw]
    | num adv =>
      cases hdv : alookup acc.1.dv pr.1 with
      | none =>
        by_cases hinf : nb.2 + adv < INFINITY
        · refine ⟨(installRoute acc.1 pr.1 (nb.2 + adv) port, true), Or.inl ?_,
            Or.inr (Or.inl ⟨nb.2 + adv, hinf, rfl⟩), Or.inr rfl⟩
          simp [processPair, hnb, hv, hdv, hinf, pure, Except.pure]
        · refine ⟨acc, Or.inl ?_, Or.inl rfl, Or.inl rfl⟩
          simp [processPair, hnb, hv, hdv, hinf, pure, Except.pure]
      | some cur =>
        by_cases hlt : nb.2 + adv < cur.1
        · by_cases hinf : nb.2 + adv < INFINITY
          · refine ⟨(installRoute acc.1 pr.1 (nb.2 + adv) port, true), Or.inl ?_,
              Or.inr (Or.inl ⟨nb.2 + adv, hinf, rfl⟩), Or.inr rfl⟩
            simp [processPair, hnb, hv, hdv, hlt, hinf, pure, Except.pure]
          · refine ⟨acc, Or.inl ?_, Or.inl rfl, Or.inl rfl⟩
            simp [processPair, hnb, hv, hdv, hlt, hinf, pure, Except.pure]
        · by_cases hcond : cur.2 = some port ∧ nb.2 + adv ≠ cur.1
          · by_cases hinf2 : INFINITY ≤ nb.2 + adv
            · cases hfa : findAlt (invalidateDest acc.1 pr.1).neighbors
                (invalidateDest acc.1 pr.1).neighbor_dvs pr.1 (some port) with
              | error e =>
                refine ⟨(invalidateDest acc.1 pr.1, acc.2), Or.inr ?_,
                  Or.inr (Or.inr (Or.inl rfl)), Or.inl rfl⟩
                simp [processPair, hnb, hv, hdv, hlt, hcond, hinf2, hfa, throw,
                  throwThe, MonadExceptOf.throw]
              | ok r =>
                obtain ⟨bc, bpo⟩ := r
                cases bpo with
                | some bp =>
                  refine ⟨(installRoute (invalidateDest acc.1 pr.1) pr.1 bc bp, true),
                    Or.inl ?_, Or.inr (Or.inr (Or.inr ⟨bc, bp,
                      findAlt_lt _ _ _ _ bc bp hfa, rfl⟩)), Or.inr rfl⟩
                  simp [processPair, hnb, hv, hdv, hlt, hcond, hinf2, hfa, pure, Except.pure]
                | none =>
                  refine ⟨(invalidateDest acc.1 pr.1, true), Or.inl ?_,
                    Or.inr (Or.inr (Or.inl rfl)), Or.inr rfl⟩
                  simp [processPair, hnb, hv, hdv, hlt, hcond, hinf2, hfa, pure, Except.pure]
            · refine ⟨(installRoute acc.1 pr.1 (nb.2 + adv) port, true), Or.inl ?_,
                Or.inr (Or.inl ⟨nb.2 + adv, lt_of_not_ge hinf2, rfl⟩), Or.inr rfl⟩
              simp [processPair, hnb, hv, hdv, hlt, hcond, hinf2, pure, Except.pure]
          · refine ⟨acc, Or.inl ?_, Or.inl rfl, Or.inl rfl⟩
            simp [processPair, hnb, hv, hdv, hlt, hcond, pure, Except.pure]

theorem installRoute_frame (s : NodeState) (d : Addr) (c : Nat) (p : Port) :
    (installRoute s d c p).addr = s.addr ∧
    (installRoute s d c p).neighbors = s.neighbors ∧
    (installRoute s d c p).neighbor_dvs = s.neighbor_dvs :=
  ⟨rfl, rfl, rfl⟩

theorem invalidateDest_frame (s : NodeState) (d : Addr) :
    (invalidateDest s d).addr = s.addr ∧
    (invalidateDest s d).neighbors = s.neighbors ∧
    (invalidateDest s d).neighbor_dvs = s.neighbor_dvs :=
  ⟨rfl, rfl, rfl⟩

theorem processPairs_inv (P : NodeState → Prop)
    (hset : ∀ s d c p, c < INFINITY → P s → P (installRoute s d c p))
    (hinv : ∀ s d, P s → P (invalidateDest s d)) :
    ∀ (pairs : List (Addr × CostVal)) (port : Port) (acc : NodeState × Bool),
    P acc.1 → P (processPairs port pairs acc).1 := by
  intro pairs
  induction pairs with
  | nil => exact fun port acc h => h
  | cons pr rest ih =>
    intro port acc h
    rcases processPair_shape port acc pr with ⟨acc2, hres, hst, _⟩
    have h2 : P acc2.1 := by
      rcases hst with h1 | ⟨c, hc, h1⟩ | h1 | ⟨bc, bp, hbc, h1⟩
      · rw [h1]; exact h
      · rw [h1]; exact hset _ _ _ _ hc h
      · rw [h1]; exact hinv _ _ h
      · rw [h1]; exact hset _ _ _ _ hbc (hinv _ _ h)
    rcases hres with hres | hres
    · simp only [processPairs, hres]
      exact ih port acc2 h2
    · simp only [processPairs, hres]
      exact h2

theorem processPairs_frame :
    ∀ (pairs : List (Addr × CostVal)) (port : Port) (acc : NodeState × Bool),
    (processPairs port pairs acc).1.addr = acc.1.addr ∧
    (processPairs port pairs acc).1.neighbors = acc.1.neighbors ∧
    (processPairs port pairs acc).1.neighbor_dvs = acc.1.neighbor_dvs := by
  intro pairs
  induction pairs with
  | nil => exact fun port acc => ⟨rfl, rfl, rfl⟩
  | cons pr rest ih =>
    intro port acc
    rcases processPair_shape port acc pr with ⟨acc2, hres, hst, _⟩
    have hfr : acc2.1.addr = acc.1.addr ∧ acc2.1.neighbors = acc.1.neighbors ∧
        acc2.1.neighbor_dvs = acc.1.neighbor_dvs := by
      rcases hst with h1 | ⟨c, hc, h1⟩ | h1 | ⟨bc, bp, hbc, h1⟩ <;> simp [h1,
        installRoute, invalidateDest]
    rcases hres with hres | hres
    · simp only [processPairs, hres]
      rcases ih port acc2 with ⟨h1, h2, h3⟩
      rcases hfr with ⟨g1, g2, g3⟩
      exact ⟨h1.trans g1, h2.trans g2, h3.trans g3⟩
    · simp only [processPairs, hres]
      exact hfr

theorem processPairs_changed :
    ∀ (pairs : List (Addr × CostVal)) (port : Port) (acc : NodeState × Bool),
    acc.2 = true → (processPairs port pairs acc).2.1 = true := by
  intro pairs
  induction pairs with
  | nil => exact fun port acc h => h
  | cons pr rest ih =>
    intro port acc h
    rcases processPair_shape port acc pr with ⟨acc2, hres, _, hch⟩
    have h2 : acc2.2 = true := by
      rcases hch with h1 | h1
      · rw [h1]; exact h
      · exact h1
    rcases hres with hres | hres
    · simp only [processPairs, hres]
      exact ih port acc2 h2
    · simp only [processPairs, hres]
      exact h2

theorem foldl_invalidateDest_inv (P : NodeState → Prop)
    (hinv : ∀ s d, P s → P (invalidateDest s d)) :
    ∀ (l : List Addr) (s : NodeState), P s → P (l.foldl invalidateDest s) := by
  intro l
  induction l with
  | nil => exact fun s h => h
  | cons d rest ih => exact fun s h => ih _ (hinv _ _ h)

theorem foldl_invalidateDest_frame :
    ∀ (l : List Addr) (s : NodeState),
    (l.foldl invalidateDest s).addr = s.addr ∧
    (l.foldl invalidateDest s).neighbors = s.neighbors ∧
    (l.foldl invalidateDest s).neighbor_dvs = s.neighbor_dvs := by
  intro l
  induction l with
  | nil => exact fun s => ⟨rfl, rfl, rfl⟩
  | cons d rest ih =>
    intro s
    rcases ih (invalidateDest s d) with ⟨h1, h2, h3⟩
    exact ⟨h1, h2, h3⟩

theorem recomputeAll_inv (P : NodeState → Prop)
    (hset : ∀ s d c p, c < INFINITY → P s → P (installRoute s d c p)) :
    ∀ (l : List Addr) (acc : NodeState × Bool), P acc.1 → P (recomputeAll l acc).1 := by
  intro l
  induction l with
  | nil => exact fun acc h => h
  | cons d rest ih =>
    intro acc h
    cases hfa : findAlt acc.1.neighbors acc.1.neighbor_dvs d none with
    | error e =>
      simp only [recomputeAll, hfa]
      exact h
    | ok r =>
      obtain ⟨bc, bpo⟩ := r
      cases bpo with
      | some bp =>
        simp only [recomputeAll, hfa]
        exact ih _ (hset _ _ _ _ (findAlt_lt _ _ _ _ bc bp hfa) h)
      | none =>
        simp only [recomputeAll, hfa]
        exact ih _ h

theorem recomputeAll_frame :
    ∀ (l : List Addr) (acc : NodeState × Bool),
    (recomputeAll l acc).1.addr = acc.1.addr ∧
    (recomputeAll l acc).1.neighbors = acc.1.neighbors ∧
    (recomputeAll l acc).1.neighbor_dvs = acc.1.neighbor_dvs := by
  intro l
  induction l with
  | nil => exact fun acc => ⟨rfl, rfl, rfl⟩
  | cons d rest ih =>
    intro acc
    cases hfa : findAlt acc.1.neighbors acc.1.neighbor_dvs d none with
    | error e =>
      simp [recomputeAll, hfa]
    | ok r =>
      obtain ⟨bc, bpo⟩ := r
      cases bpo with
      | some bp =>
        simp only [recomputeAll, hfa]
        rcases ih (installRoute acc.1 d bc bp, true) with ⟨h1, h2, h3⟩
        exact ⟨h1, h2, h3⟩
      | none =>
        simp only [recomputeAll, hfa]
        exact ih acc

theorem consistent_installRoute (s : NodeState) (d : Addr) (c : Nat) (p : Port)
    (h : Consistent s) : Consistent (installRoute s d c p) := by
  intro d2
  by_cases hd : d = d2
  · subst hd
    show alookup (aset s.forwarding_table d p) d =
      viaOf (alookup (aset s.dv d (c, some p)) d)
    rw [alookup_aset_self, alookup_aset_self]
    rfl
  · show alookup (aset s.forwarding_table d p) d2 =
      viaOf (alookup (aset s.dv d (c, some p)) d2)
    rw [alookup_aset_ne _ _ _ _ hd, alookup_aset_ne _ _ _ _ hd]
    exact h d2

theorem consistent_invalidateDest (s : NodeState) (d : Addr)
    (h : Consistent s) : Consistent (invalidateDest s d) := by
  intro d2
  by_cases hd : d2 = d
  · subst hd
    show alookup (aerase s.forwarding_table d2) d2 =
      viaOf (alookup (aset s.dv d2 (INFINITY, none)) d2)
    rw [alookup_aerase_self, alookup_aset_self]
    rfl
  · show alookup (aerase s.forwarding_table d) d2 =
      viaOf (alookup (aset s.dv d (INFINITY, none)) d2)
    rw [alookup_aerase_ne _ _ _ hd, alookup_aset_ne _ _ _ _ (fun hc => hd hc.symm)]
    exact h d2

theorem infnull_installRoute (s : NodeState) (d : Addr) (c : Nat) (p : Port)
    (hc : c ≠ INFINITY) (h : InfNullM s) : InfNullM (installRoute s d c p) := by
  intro x hx hinf
  rcases mem_aset _ _ _ _ hx with hx1 | hx1
  · subst hx1
    exact absurd hinf hc
  · exact h x hx1 hinf

theorem infnull_invalidateDest (s : NodeState) (d : Addr)
    (h : InfNullM s) : InfNullM (invalidateDest s d) := by
  intro x hx hinf
  rcases mem_aset _ _ _ _ hx with hx1 | hx1
  · subst hx1
    rfl
  · exact h x hx1 hinf

theorem bounded_installRoute (s : NodeState) (d : Addr) (c : Nat) (p : Port)
    (hc : c ≤ INFINITY) (h : Bounded s) : Bounded (installRoute s d c p) := by
  refine ⟨?_, h.2⟩
  intro x hx
  rcases mem_aset _ _ _ _ hx with hx1 | hx1
  · subst hx1
    exact hc
  · exact h.1 x hx1

theorem bounded_invalidateDest (s : NodeState) (d : Addr)
    (h : Bounded s) : Bounded (invalidateDest s d) := by
  refine ⟨?_, h.2⟩
  intro x hx
  rcases mem_aset _ _ _ _ hx with hx1 | hx1
  · subst hx1
    exact le_refl _
  · exact h.1 x hx1

theorem selfok_installRoute (s : NodeState) (d : Addr) (c : Nat) (p : Port)
    (hd : d ≠ s.addr) (h : SelfOk s) : SelfOk (installRoute s d c p) := by
  refine ⟨mem_aset_of_ne _ _ _ _ h.1 (fun hc => hd hc.symm), ?_⟩
  intro x hx hxa
  have hxa2 : x.1 = s.addr := hxa
  rcases mem_aset _ _ _ _ hx with hx1 | hx1
  · exfalso
    apply hd
    rw [← hxa2, hx1]
  · exact h.2 x hx1 hxa2

theorem selfok_invalidateDest (s : NodeState) (d : Addr)
    (hd : d ≠ s.addr) (h : SelfOk s) : SelfOk (invalidateDest s d) := by
  refine ⟨mem_aset_of_ne _ _ _ _ h.1 (fun hc => hd hc.symm), ?_⟩
  intro x hx hxa
  have hxa2 : x.1 = s.addr := hxa
  rcases mem_aset _ _ _ _ hx with hx1 | hx1
  · exfalso
    apply hd
    rw [← hxa2, hx1]
  · exact h.2 x hx1 hxa2

theorem fst_if_pair {c : Prop} [Decidable c] (a : NodeState) (x y : List Msg) :
    (if c then (a, x) else (a, y)).1 = a := by
  split <;> rfl

theorem handle_packet_state (s : NodeState) (port : Port) (pkt : Packet) :
    (handle_packet s port pkt).1 = s ∨
    ∃ pairs, pkt.content = Content.parsed pairs ∧ pkt.is_traceroute = false ∧
      (handle_packet s port pkt).1 =
        (processPairs port pairs
          ({ s with neighbor_dvs := aset s.neighbor_dvs pkt.src_addr pairs },
            false)).1 := by
  cases htr : pkt.is_traceroute with
  | true =>
    left
    cases hft : alookup s.forwarding_table pkt.dst_addr with
    | none => simp [handle_packet, htr, hft]
    | some p => simp [handle_packet, htr, hft]
  | false =>
    cases hc : pkt.content with
    | unparseable =>
      left
      simp [handle_packet, htr, hc]
    | parsed pairs =>
      right
      refine ⟨pairs, rfl, rfl, ?_⟩
      simp only [handle_packet, htr, Bool.false_eq_true, if_false, hc]
      exact fst_if_pair _ _ _

theorem handle_remove_link_state (s : NodeState) (port : Port) :
    (handle_remove_link s port).1 = s ∨
    ∃ nb, alookup s.neighbors port = some nb ∧
      (handle_remove_link s port).1 =
        (recomputeAll (invalidList (removeLinkPrep s port nb.1) port)
          ((invalidList (removeLinkPrep s port nb.1) port).foldl invalidateDest
            (removeLinkPrep s port nb.1),
           !(invalidList (removeLinkPrep s port nb.1) port).isEmpty)).1 := by
  cases hnb : alookup s.neighbors port with
  | none =>
    left
    simp [handle_remove_link, hnb]
  | some nb =>
    right
    refine ⟨nb, rfl, ?_⟩
    simp only [handle_remove_link, hnb]
    exact fst_if_pair _ _ _

theorem consistent_initState (a : Addr) (hb : Int) : Consistent (initState a hb) := by
  intro d
  by_cases hd : a = d
  · subst hd
    simp [initState, alookup, viaOf]
  · simp [initState, alookup, hd, viaOf]

theorem consistent_handle_packet (s : NodeState) (port : Port) (pkt : Packet)
    (h : Consistent s) : Consistent (handle_packet s port pkt).1 := by
  rcases handle_packet_state s port pkt with hst | ⟨pairs, _, _, hst⟩
  · rw [hst]
    exact h
  · rw [hst]
    exact processPairs_inv Consistent
      (fun s2 d c p _ h2 => consistent_installRoute s2 d c p h2)
      consistent_invalidateDest pairs port _ h

theorem consistent_handle_new_link (s : NodeState) (port : Port) (ep : Addr) (c : Nat)
    (h : Consistent s) : Consistent (handle_new_link s port ep c).1 :=
  consistent_installRoute _ ep c port h

theorem consistent_handle_remove_link (s : NodeState) (port : Port)
    (h : Consistent s) : Consistent (handle_remove_link s port).1 := by
  rcases handle_remove_link_state s port with hst | ⟨nb, hnb, hst⟩
  · rw [hst]
    exact h
  · rw [hst]
    exact recomputeAll_inv Consistent
      (fun s2 d c p _ h2 => consistent_installRoute s2 d c p h2) _ _
      (foldl_invalidateDest_inv Consistent consistent_invalidateDest _ _ h)

theorem consistent_handle_time (s : NodeState) (t : Int)
    (h : Consistent s) : Consistent (handle_time s t).1 := by
  unfold handle_time
  split
  · exact h
  · exact h

theorem infnull_initState (a : Addr) (hb : Int) : InfNullM (initState a hb) := by
  intro x hx hinf
  simp only [initState] at hx
  rcases List.mem_singleton.mp hx with rfl
  rfl

theorem infnull_handle_packet (s : NodeState) (port : Port) (pkt : Packet)
    (h : InfNullM s) : InfNullM (handle_packet s port pkt).1 := by
  rcases handle_packet_state s port pkt with hst | ⟨pairs, _, _, hst⟩
  · rw [hst]
    exact h
  · rw [hst]
    exact processPairs_inv InfNullM
      (fun s2 d c p hc h2 => infnull_installRoute s2 d c p (Nat.ne_of_lt hc) h2)
      infnull_invalidateDest pairs port _ h

theorem infnull_handle_new_link (s : NodeState) (port : Port) (ep : Addr) (c : Nat)
    (hc : c ≠ INFINITY) (h : InfNullM s) : InfNullM (handle_new_link s port ep c).1 :=
  infnull_installRoute _ ep c port hc h

theorem infnull_handle_remove_link (s : NodeState) (port : Port)
    (h : InfNullM s) : InfNullM (handle_remove_link s port).1 := by
  rcases handle_remove_link_state s port with hst | ⟨nb, hnb, hst⟩
  · rw [hst]
    exact h
  · rw [hst]
    exact recomputeAll_inv InfNullM
      (fun s2 d c p hc h2 => infnull_installRoute s2 d c p (Nat.ne_of_lt hc) h2) _ _
      (foldl_invalidateDest_inv InfNullM infnull_invalidateDest _ _ h)

theorem infnull_handle_time (s : NodeState) (t : Int)
    (h : InfNullM s) : InfNullM (handle_time s t).1 := by
  unfold handle_time
  split
  · exact h
  · exact h

theorem bounded_initState (a : Addr) (hb : Int) : Bounded (initState a hb) := by
  constructor
  · intro x hx
    simp only [initState] at hx
    rcases List.mem_singleton.mp hx with rfl
    simp [INFINITY]
  · intro x hx
    simp [initState] at hx

theorem bounded_handle_packet (s : NodeState) (port : Port) (pkt : Packet)
    (h : Bounded s) : Bounded (handle_packet s port pkt).1 := by
  rcases handle_packet_state s port pkt with hst | ⟨pairs, _, _, hst⟩
  · rw [hst]
    exact h
  · rw [hst]
    exact processPairs_inv Bounded
      (fun s2 d c p hc h2 => bounded_installRoute s2 d c p (le_of_lt hc) h2)
      bounded_invalidateDest pairs port _ ⟨h.1, h.2⟩

theorem bounded_handle_new_link (s : NodeState) (port : Port) (ep : Addr) (c : Nat)
    (hc : c ≤ INFINITY) (h : Bounded s) : Bounded (handle_new_link s port ep c).1 := by
  apply bounded_installRoute _ ep c port hc
  constructor
  · exact h.1
  · intro x hx
    rcases mem_aset _ _ _ _ hx with hx1 | hx1
    · subst hx1
      exact hc
    · exact h.2 x hx1

theorem bounded_handle_remove_link (s : NodeState) (port : Port)
    (h : Bounded s) : Bounded (handle_remove_link s port).1 := by
  rcases handle_remove_link_state s port with hst | ⟨nb, hnb, hst⟩
  · rw [hst]
    exact h
  · rw [hst]
    apply recomputeAll_inv Bounded
      (fun s2 d c p hc h2 => bounded_installRoute s2 d c p (le_of_lt hc) h2)
    apply foldl_invalidateDest_inv Bounded bounded_invalidateDest
    constructor
    · exact h.1
    · intro x hx
      exact h.2 x (mem_aerase _ _ _ hx)

theorem bounded_handle_time (s : NodeState) (t : Int)
    (h : Bounded s) : Bounded (handle_time s t).1 := by
  unfold handle_time
  split
  · exact h
  · exact h

theorem selfok_lookup (s : NodeState) (h : SelfOk s) :
    alookup s.dv s.addr = some (0, none) := by
  rcases alookup_isSome_of_mem s.dv s.addr _ h.1 with ⟨v2, hv2, hm⟩
  have h3 : v2 = (0, none) := h.2 (s.addr, v2) hm rfl
  rw [hv2, h3]

theorem processPair_self_eq (port : Port) (acc : NodeState × Bool) (pr : Addr × CostVal)
    (h : SelfOk acc.1) (hda : pr.1 = acc.1.addr) :
    processPair port acc pr = Except.ok acc ∨
    processPair port acc pr = Except.error acc := by
  cases hnb : alookup acc.1.neighbors port with
  | none =>
    left
    simp [processPair, hnb, pure, Except.pure]
  | some nb =>
    cases hv : pr.2 with
    | bad =>
      right
      simp [processPair, hnb, hv, throw, throwThe, MonadExceptOf.throw]
    | num adv =>
      left
      have hl : alookup acc.1.dv pr.1 = some (0, none) := by
        rw [hda]
        exact selfok_lookup acc.1 h
      simp [processPair, hnb, hv, hl, pure, Except.pure]

theorem processPair_selfok (port : Port) (acc : NodeState × Bool) (pr : Addr × CostVal)
    (h : SelfOk acc.1) (acc2 : NodeState × Bool)
    (hres : processPair port acc pr = Except.ok acc2 ∨
      processPair port acc pr = Except.error acc2) : SelfOk acc2.1 := by
  by_cases hda : pr.1 = acc.1.addr
  · rcases processPair_self_eq port acc pr h hda with he | he <;>
      rcases hres with hr | hr <;> rw [he] at hr
    · cases hr
      exact h
    · cases hr
    · cases hr
    · cases hr
      exact h
  · rcases processPair_shape port acc pr with ⟨acc3, hres3, hst, _⟩
    have hacc : acc2 = acc3 := by
      rcases hres with hr | hr <;> rcases hres3 with hr3 | hr3 <;> rw [hr] at hr3 <;>
        first
        | exact Except.ok.inj hr3
        | exact Except.error.inj hr3
        | cases hr3
    subst hacc
    rcases hst with h1 | ⟨c, hc, h1⟩ | h1 | ⟨bc, bp, hbc, h1⟩
    · rw [h1]
      exact h
    · rw [h1]
      exact selfok_installRoute _ _ _ _ hda h
    · rw [h1]
      exact selfok_invalidateDest _ _ hda h
    · rw [h1]
      apply selfok_installRoute
      · exact hda
      · exact selfok_invalidateDest _ _ hda h

theorem processPairs_selfok :
    ∀ (pairs : List (Addr × CostVal)) (port : Port) (acc : NodeState × Bool),
    SelfOk acc.1 → SelfOk (processPairs port pairs acc).1 := by
  intro pairs
  induction pairs with
  | nil => exact fun port acc h => h
  | cons pr rest ih =>
    intro port acc h
    rcases processPair_shape port acc pr with ⟨acc2, hres, _, _⟩
    have h2 : SelfOk acc2.1 := processPair_selfok port acc pr h acc2 hres
    rcases hres with hres | hres
    · simp only [processPairs, hres]
      exact ih port acc2 h2
    · simp only [processPairs, hres]
      exact h2

theorem selfok_initState (a : Addr) (hb : Int) : SelfOk (initState a hb) := by
  constructor
  · simp [initState]
  · intro x hx _
    simp only [initState] at hx
    rcases List.mem_singleton.mp hx with rfl
    rfl

theorem selfok_handle_packet (s : NodeState) (port : Port) (pkt : Packet)
    (h : SelfOk s) : SelfOk (handle_packet s port pkt).1 := by
  rcases handle_packet_state s port pkt with hst | ⟨pairs, _, _, hst⟩
  · rw [hst]
    exact h
  · rw [hst]
    exact processPairs_selfok pairs port _ h

theorem selfok_handle_new_link (s : NodeState) (port : Port) (ep : Addr) (c : Nat)
    (hep : ep ≠ s.addr) (h : SelfOk s) : SelfOk (handle_new_link s port ep c).1 :=
  selfok_installRoute _ ep c port hep h

theorem foldl_invalidateDest_selfok :
    ∀ (l : List Addr) (s : NodeState), SelfOk s → (∀ d ∈ l, d ≠ s.addr) →
    SelfOk (l.foldl invalidateDest s) := by
  intro l
  induction l with
  | nil => exact fun s h _ => h
  | cons d rest ih =>
    intro s h hl
    apply ih
    · exact selfok_invalidateDest _ _ (hl d (List.mem_cons_self _ _)) h
    · intro d2 hd2
      exact hl d2 (List.mem_cons_of_mem _ hd2)

theorem recomputeAll_selfok :
    ∀ (l : List Addr) (acc : NodeState × Bool), SelfOk acc.1 →
    (∀ d ∈ l, d ≠ acc.1.addr) → SelfOk (recomputeAll l acc).1 := by
  intro l
  induction l with
  | nil => exact fun acc h _ => h
  | cons d rest ih =>
    intro acc h hl
    cases hfa : findAlt acc.1.neighbors acc.1.neighbor_dvs d none with
    | error e =>
      simp only [recomputeAll, hfa]
      exact h
    | ok r =>
      obtain ⟨bc, bpo⟩ := r
      cases bpo with
      | some bp =>
        simp only [recomputeAll, hfa]
        apply ih
        · exact selfok_installRoute _ _ _ _ (hl d (List.mem_cons_self _ _)) h
        · intro d2 hd2
          exact hl d2 (List.mem_cons_of_mem _ hd2)
      | none =>
        simp only [recomputeAll, hfa]
        apply ih acc h
        intro d2 hd2
        exact hl d2 (List.mem_cons_of_mem _ hd2)

theorem mem_invalidList (s : NodeState) (port : Port) (d : Addr)
    (hd : d ∈ invalidList s port) : ∃ x ∈ s.dv, x.2.2 = some port ∧ x.1 = d := by
  rcases List.mem_filterMap.mp hd with ⟨x, hx, hfx⟩
  by_cases hxp : x.2.2 = some port
  · rw [if_pos hxp] at hfx
    exact ⟨x, hx, hxp, Option.some.inj hfx⟩
  · rw [if_neg hxp] at hfx
    cases hfx

theorem selfok_handle_remove_link (s : NodeState) (port : Port)
    (h : SelfOk s) : SelfOk (handle_remove_link s port).1 := by
  rcases handle_remove_link_state s port with hst | ⟨nb, hnb, hst⟩
  · rw [hst]
    exact h
  · rw [hst]
    have hs1 : SelfOk (removeLinkPrep s port nb.1) := h
    have hinvne : ∀ d ∈ invalidList (removeLinkPrep s port nb.1) port, d ≠ s.addr := by
      intro d hd hda
      rcases mem_invalidList _ _ _ hd with ⟨x, hx, hxp, hxd⟩
      have hself : x.2 = (0, none) := h.2 x hx (by rw [hxd, hda])
      rw [hself] at hxp
      cases hxp
    apply recomputeAll_selfok
    · apply foldl_invalidateDest_selfok _ _ hs1
      intro d hd
      exact hinvne d hd
    · intro d hd
      have haddr := (foldl_invalidateDest_frame
        (invalidList (removeLinkPrep s port nb.1) port) (removeLinkPrep s port nb.1)).1
      rw [haddr]
      exact hinvne d hd

theorem selfok_handle_time (s : NodeState) (t : Int)
    (h : SelfOk s) : SelfOk (handle_time s t).1 := by
  unfold handle_time
  split
  · exact h
  · exact h

theorem handle_packet_addr (s : NodeState) (port : Port) (pkt : Packet) :
    (handle_packet s port pkt).1.addr = s.addr := by
  rcases handle_packet_state s port pkt with hst | ⟨pairs, _, _, hst⟩
  · rw [hst]
  · rw [hst]
    exact (processPairs_frame pairs port _).1

theorem handle_remove_link_addr (s : NodeState) (port : Port) :
    (handle_remove_link s port).1.addr = s.addr := by
  rcases handle_remove_link_state s port with hst | ⟨nb, hnb, hst⟩
  · rw [hst]
  · rw [hst]
    rw [(recomputeAll_frame _ _).1, (foldl_invalidateDest_frame _ _).1]
    rfl

theorem applyEvent_addr (s : NodeState) (e : Event) :
    (applyEvent s e).addr = s.addr := by
  cases e with
  | routing port src adv => exact handle_packet_addr s port _
  | data port dst => exact handle_packet_addr s port _
  | linkUp port ep c => rfl
  | linkDown port => exact handle_remove_link_addr s port
  | timer t =>
    show (handle_time s t).1.addr = s.addr
    unfold handle_time
    split <;> rfl

theorem run_inv_aux (P : NodeState → Prop) (q : Event → Bool)
    (hstep : ∀ s e, q e = true → P s → P (applyEvent s e)) :
    ∀ (es : List Event) (s : NodeState), P s → (∀ e ∈ es, q e = true) →
    P (es.foldl applyEvent s) := by
  intro es
  induction es with
  | nil => exact fun s h _ => h
  | cons e rest ih =>
    intro s h hq
    exact ih (applyEvent s e) (hstep s e (hq e (List.mem_cons_self _ _)) h)
      (fun e2 he2 => hq e2 (List.mem_cons_of_mem _ he2))

theorem run_consistent (a : Addr) (hb : Int) (es : List Event) :
    Consistent (run a hb es) := by
  apply run_inv_aux Consistent (fun _ => true)
  · intro s e _ h
    cases e with
    | routing port src adv => exact consistent_handle_packet s port _ h
    | data port dst => exact consistent_handle_packet s port _ h
    | linkUp port ep c => exact consistent_handle_new_link s port ep c h
    | linkDown port => exact consistent_handle_remove_link s port h
    | timer t => exact consistent_handle_time s t h
  · exact consistent_initState a hb
  · intro e _
    rfl

theorem run_infnull (a : Addr) (hb : Int) (es : List Event)
    (hq : ∀ e ∈ es, evCostNeInf e = true) : InfNullM (run a hb es) := by
  apply run_inv_aux InfNullM evCostNeInf _ es _ (infnull_initState a hb) hq
  intro s e hqe h
  cases e with
  | routing port src adv => exact infnull_handle_packet s port _ h
  | data port dst => exact infnull_handle_packet s port _ h
  | linkUp port ep c =>
    exact infnull_handle_new_link s port ep c (of_decide_eq_true hqe) h
  | linkDown port => exact infnull_handle_remove_link s port h
  | timer t => exact infnull_handle_time s t h

theorem run_bounded (a : Addr) (hb : Int) (es : List Event)
    (hq : ∀ e ∈ es, evCostLeInf e = true) : Bounded (run a hb es) := by
  apply run_inv_aux Bounded evCostLeInf _ es _ (bounded_initState a hb) hq
  intro s e hqe h
  cases e with
  | routing port src adv => exact bounded_handle_packet s port _ h
  | data port dst => exact bounded_handle_packet s port _ h
  | linkUp port ep c =>
    exact bounded_handle_new_link s port ep c (of_decide_eq_true hqe) h
  | linkDown port => exact bounded_handle_remove_link s port h
  | timer t => exact bounded_handle_time s t h

theorem run_selfok (a : Addr) (hb : Int) (es : List Event)
    (hq : ∀ e ∈ es, evNotSelf a e = true) :
    (run a hb es).addr = a ∧ SelfOk (run a hb es) := by
  apply run_inv_aux (fun s => s.addr = a ∧ SelfOk s) (evNotSelf a) _ es _
    ⟨rfl, selfok_initState a hb⟩ hq
  intro s e hqe h
  refine ⟨(applyEvent_addr s e).trans h.1, ?_⟩
  cases e with
  | routing port src adv => exact selfok_handle_packet s port _ h.2
  | data port dst => exact selfok_handle_packet s port _ h.2
  | linkUp port ep c =>
    apply selfok_handle_new_link s port ep c _ h.2
    rw [h.1]
    exact of_decide_eq_true hqe
  | linkDown port => exact selfok_handle_remove_link s port h.2
  | timer t => exact selfok_handle_time s t h.2

theorem alookup_cons {α β : Type} [DecidableEq α] (x : α × β) (l : List (α × β)) (k : α) :
    alookup (x :: l) k = if x.1 = k then some x.2 else alookup l k := by
  obtain ⟨k1, v1⟩ := x
  rfl

theorem poisonEntry_key (a naddr : Addr) (port : Port) (dcost : Nat)
    (x : Addr × Nat × Option Port) : (poisonEntry a naddr port dcost x).1 = x.1 := by
  unfold poisonEntry
  split_ifs <;> rfl

theorem poisonEntry_poison (a naddr : Addr) (port : Port) (dcost : Nat)
    (x : Addr × Nat × Option Port) (h1 : x.1 ≠ a) (h2 : x.1 ≠ naddr)
    (hp : x.2.2 = some port) : poisonEntry a naddr port dcost x = (x.1, INFINITY) := by
  unfold poisonEntry
  rw [if_neg h1, if_neg h2, if_pos hp]

theorem poisonEntry_bound (a naddr : Addr) (port : Port) (dcost : Nat)
    (x : Addr × Nat × Option Port) (hdc : dcost ≤ INFINITY) (hx : x.2.1 ≤ INFINITY) :
    (poisonEntry a naddr port dcost x).2 ≤ INFINITY := by
  unfold poisonEntry
  split_ifs <;> simp [hdc, hx]

theorem relaxInstall (s : NodeState) (ch : Bool) (port : Port) (naddr : Addr) (c : Nat)
    (dest : Addr) (adv : Nat)
    (hnb : alookup s.neighbors port = some (naddr, c))
    (hbetter : alookup s.dv dest = none ∨
      ∃ cur, alookup s.dv dest = some cur ∧ c + adv < cur.1)
    (hinf : c + adv < INFINITY) :
    processPair port (s, ch) (dest, CostVal.num adv) =
      Except.ok (installRoute s dest (c + adv) port, true) := by
  rcases hbetter with hdv | ⟨cur, hdv, hlt⟩
  · simp [processPair, hnb, hdv, hinf, pure, Except.pure]
  · simp [processPair, hnb, hdv, hlt, hinf, pure, Except.pure]

theorem processPair_ok_of_wf (port : Port) (acc : NodeState × Bool) (pr : Addr × CostVal)
    (hwf : CacheWF acc.1.neighbor_dvs) (hnum : pr.2 ≠ CostVal.bad) :
    ∃ acc2, processPair port acc pr = Except.ok acc2 := by
  cases hnb : alookup acc.1.neighbors port with
  | none => exact ⟨acc, by simp [processPair, hnb, pure, Except.pure]⟩
  | some nb =>
    cases hv : pr.2 with
    | bad => exact absurd hv hnum
    | num adv =>
      cases hdv : alookup acc.1.dv pr.1 with
      | none =>
        by_cases hinf : nb.2 + adv < INFINITY
        · exact ⟨(installRoute acc.1 pr.1 (nb.2 + adv) port, true),
            by simp [processPair, hnb, hv, hdv, hinf, pure, Except.pure]⟩
        · exact ⟨acc, by simp [processPair, hnb, hv, hdv, hinf, pure, Except.pure]⟩
      | some cur =>
        by_cases hlt : nb.2 + adv < cur.1
        · by_cases hinf : nb.2 + adv < INFINITY
          · exact ⟨(installRoute acc.1 pr.1 (nb.2 + adv) port, true),
              by simp [processPair, hnb, hv, hdv, hlt, hinf, pure, Except.pure]⟩
          · exact ⟨acc, by simp [processPair, hnb, hv, hdv, hlt, hinf, pure, Except.pure]⟩
        · by_cases hcond : cur.2 = some port ∧ nb.2 + adv ≠ cur.1
          · by_cases hinf2 : INFINITY ≤ nb.2 + adv
            · rcases findAlt_ok_of_wf (invalidateDest acc.1 pr.1).neighbors
                (invalidateDest acc.1 pr.1).neighbor_dvs pr.1 (some port) hwf with ⟨r, hfa⟩
              obtain ⟨bc, bpo⟩ := r
              cases bpo with
              | some bp =>
                exact ⟨(installRoute (invalidateDest acc.1 pr.1) pr.1 bc bp, true),
                  by simp [processPair, hnb, hv, hdv, hlt, hcond, hinf2, hfa,
                    pure, Except.pure]⟩
              | none =>
                exact ⟨(invalidateDest acc.1 pr.1, true),
                  by simp [processPair, hnb, hv, hdv, hlt, hcond, hinf2, hfa,
                    pure, Except.pure]⟩
            · exact ⟨(installRoute acc.1 pr.1 (nb.2 + adv) port, true),
                by simp [processPair, hnb, hv, hdv, hlt, hcond, hinf2, pure, Except.pure]⟩
          · exact ⟨acc, by simp [processPair, hnb, hv, hdv, hlt, hcond, pure, Except.pure]⟩

theorem processPairs_ok_of_wf :
    ∀ (pairs : List (Addr × CostVal)) (port : Port) (acc : NodeState × Bool),
    CacheWF acc.1.neighbor_dvs → (∀ pr ∈ pairs, pr.2 ≠ CostVal.bad) →
    (processPairs port pairs acc).2.2 = true := by
  intro pairs
  induction pairs with
  | nil => exact fun port acc _ _ => rfl
  | cons pr rest ih =>
    intro port acc hwf hnum
    rcases processPair_ok_of_wf port acc pr hwf
      (hnum pr (List.mem_cons_self _ _)) with ⟨acc2, hok⟩
    simp only [processPairs, hok]
    apply ih port acc2
    · have hfr : acc2.1.neighbor_dvs = acc.1.neighbor_dvs := by
        rcases processPair_shape port acc pr with ⟨acc3, hres, hst, _⟩
        have hacc : acc2 = acc3 := by
          rcases hres with hr | hr
          · rw [hok] at hr
            exact Except.ok.inj hr
          · rw [hok] at hr
            cases hr
        subst hacc
        rcases hst with h1 | ⟨cc, hc, h1⟩ | h1 | ⟨bc, bp, hbc, h1⟩ <;> rw [h1] <;> rfl
      rw [hfr]
      exact hwf
    · exact fun pr2 hpr2 => hnum pr2 (List.mem_cons_of_mem _ hpr2)

theorem handle_packet_parsed (s : NodeState) (port : Port) (src dst : Addr)
    (pairs : List (Addr × CostVal)) (st : NodeState) (ch ok2 : Bool)
    (hp : processPairs port pairs
      ({ s with neighbor_dvs := aset s.neighbor_dvs src pairs }, false) = (st, ch, ok2)) :
    handle_packet s port (mkRouting src dst (Content.parsed pairs)) =
      (st, if ok2 && ch then broadcast_dv st else []) := by
  have hr : handle_packet s port (mkRouting src dst (Content.parsed pairs)) =
      (if (processPairs port pairs
            ({ s with neighbor_dvs := aset s.neighbor_dvs src pairs }, false)).2.2 &&
          (processPairs port pairs
            ({ s with neighbor_dvs := aset s.neighbor_dvs src pairs }, false)).2.1
       then ((processPairs port pairs
              ({ s with neighbor_dvs := aset s.neighbor_dvs src pairs }, false)).1,
             broadcast_dv (processPairs port pairs
              ({ s with neighbor_dvs := aset s.neighbor_dvs src pairs }, false)).1)
       else ((processPairs port pairs
              ({ s with neighbor_dvs := aset s.neighbor_dvs src pairs }, false)).1, [])) :=
    rfl
  rw [hp] at hr
  rw [hr]
  by_cases hc : (ok2 && ch) = true
  · simp [hc]
  · simp [hc]

theorem alookup_poison_aux (a naddr : Addr) (port : Port) (dcost : Nat) :
    ∀ (l : List (Addr × Nat × Option Port)) (dest : Addr) (c0 : Nat),
    alookup l dest = some (c0, some port) → dest ≠ a → dest ≠ naddr →
    alookup (l.map (poisonEntry a naddr port dcost)) dest = some INFINITY := by
  intro l
  induction l with
  | nil =>
    intro dest c0 h
    simp [alookup] at h
  | cons hd t ih =>
    intro dest c0 h h1 h2
    rw [alookup_cons] at h
    rw [List.map_cons, alookup_cons, poisonEntry_key]
    by_cases hk : hd.1 = dest
    · rw [if_pos hk] at h
      rw [if_pos hk]
      have hv : hd.2 = (c0, some port) := Option.some.inj h
      have hpe : poisonEntry a naddr port dcost hd = (hd.1, INFINITY) := by
        apply poisonEntry_poison
        · rw [hk]
          exact h1
        · rw [hk]
          exact h2
        · rw [hv]
      rw [hpe]
    · rw [if_neg hk] at h
      rw [if_neg hk]
      exact ih dest c0 h h1 h2

theorem build_poisoned_poison (s : NodeState) (port : Port) (naddr : Addr) (dcost : Nat)
    (dest : Addr) (c0 : Nat)
    (hdv : alookup s.dv dest = some (c0, some port))
    (h1 : dest ≠ s.addr) (h2 : dest ≠ naddr) :
    alookup (build_poisoned s port naddr dcost) dest = some INFINITY :=
  alookup_poison_aux s.addr naddr port dcost s.dv dest c0 hdv h1 h2

theorem build_poisoned_bound (s : NodeState) (port : Port) (naddr : Addr) (dcost : Nat)
    (hdc : dcost ≤ INFINITY) (hdv : ∀ x ∈ s.dv, x.2.1 ≤ INFINITY) :
    ∀ y ∈ build_poisoned s port naddr dcost, y.2 ≤ INFINITY := by
  intro y hy
  rcases List.mem_map.mp hy with ⟨x, hx, hfx⟩
  rw [← hfx]
  exact poisonEntry_bound s.addr naddr port dcost x hdc (hdv x hx)

/-- C1: on receiving an advertisement via a known port `P` with link cost `c`,
a pair `(dest, advertisedCost)` for which `dest` has no DV entry or
`c + advertisedCost` is strictly below the current cost, and
`c + advertisedCost < INFINITY`, installs `{cost, viaPort} = (c+adv, P)` in the
DV table, sets the forwarding entry to `P`, and marks the table changed; the
changed mark survives the rest of the loop; and when the loop finishes without
a type error the handler broadcasts exactly when the mark is set. -/
theorem claim_C1 :
    (∀ (s : NodeState) (ch : Bool) (port : Port) (naddr : Addr) (c : Nat)
       (dest : Addr) (adv : Nat),
       alookup s.neighbors port = some (naddr, c) →
       (alookup s.dv dest = none ∨
         ∃ cur, alookup s.dv dest = some cur ∧ c + adv < cur.1) →
       c + adv < INFINITY →
       processPair port (s, ch) (dest, CostVal.num adv) =
         Except.ok (installRoute s dest (c + adv) port, true) ∧
       alookup (installRoute s dest (c + adv) port).dv dest = some (c + adv, some port) ∧
       alookup (installRoute s dest (c + adv) port).forwarding_table dest = some port) ∧
    (∀ (pairs : List (Addr × CostVal)) (port : Port) (acc : NodeState × Bool),
       acc.2 = true → (processPairs port pairs acc).2.1 = true) ∧
    (∀ (pairs : List (Addr × CostVal)) (port : Port) (acc : NodeState × Bool),
       CacheWF acc.1.neighbor_dvs → (∀ pr ∈ pairs, pr.2 ≠ CostVal.bad) →
       (processPairs port pairs acc).2.2 = true) ∧
    (∀ (s : NodeState) (port : Port) (src dst : Addr) (pairs : List (Addr × CostVal))
       (st : NodeState) (ch ok2 : Bool),
       processPairs port pairs
         ({ s with neighbor_dvs := aset s.neighbor_dvs src pairs }, false) =
           (st, ch, ok2) →
       handle_packet s port (mkRouting src dst (Content.parsed pairs)) =
         (st, if ok2 && ch then broadcast_dv st else [])) := by
  refine ⟨?_, processPairs_changed, processPairs_ok_of_wf, handle_packet_parsed⟩
  intro s ch port naddr c dest adv hnb hbetter hinf
  refine ⟨relaxInstall s ch port naddr c dest adv hnb hbetter hinf, ?_, ?_⟩
  · exact alookup_aset_self s.dv dest (c + adv, some port)
  · exact alookup_aset_self s.forwarding_table dest port

/-- Witness for C1 at a concrete input: node A with a link to B on port 0 at
cost 1 receives `{"D": 2}`; `dv["D"]` becomes `(3, some 0)`. -/
theorem claim_C1_witness :
    alookup exLinkB.neighbors 0 = some ("B", 1) ∧
    alookup exLinkB.dv "D" = none ∧
    processPair 0 (exLinkB, false) ("D", CostVal.num 2) =
      Except.ok (installRoute exLinkB "D" (1 + 2) 0, true) ∧
    alookup (installRoute exLinkB "D" (1 + 2) 0).dv "D" = some (1 + 2, some 0) ∧
    alookup (installRoute exLinkB "D" (1 + 2) 0).forwarding_table "D" = some 0 := by
  have h := claim_C1.1 exLinkB false 0 "B" 1 "D" 2 (by decide) (Or.inl (by decide))
    (by decide)
  exact ⟨by decide, by decide, h.1, h.2.1, h.2.2⟩

/-- Counterexample for C3 as stated: in the state after `link up (0, B, 1)`,
the DV entry for B is `(1, some 0)` (route via port 0), yet the vector built
for the neighbor B on port 0 advertises the finite cost 1 for B (the
direct-link override precedes poison reverse in `send_dv`). -/
theorem claim_C3_cex :
    alookup exLinkB.dv "B" = some (1, some 0) ∧
    send_dv exLinkB 0 = [Msg.dvUpdate 0 "B" (build_poisoned exLinkB 0 "B" 1)] ∧
    alookup (build_poisoned exLinkB 0 "B" 1) "B" = some 1 ∧
    1 < INFINITY := by
  refine ⟨by decide, by decide, by decide, by decide⟩

/-- C3 amended: the vector built for the neighbor on port `P` advertises
`INFINITY` for every destination routed via `P` other than the node's own
address and the neighbor's own address. -/
theorem claim_C3 (s : NodeState) (port : Port) (naddr : Addr) (dcost : Nat)
    (dest : Addr) (c0 : Nat)
    (hnb : alookup s.neighbors port = some (naddr, dcost))
    (hdv : alookup s.dv dest = some (c0, some port))
    (h1 : dest ≠ s.addr) (h2 : dest ≠ naddr) :
    send_dv s port = [Msg.dvUpdate port naddr (build_poisoned s port naddr dcost)] ∧
    alookup (build_poisoned s port naddr dcost) dest = some INFINITY := by
  constructor
  · simp [send_dv, hnb]
  · exact build_poisoned_poison s port naddr dcost dest c0 hdv h1 h2

/-- Witness for the amended C3: in `exRich`, `dv["D"] = (3, some 0)` and the
vector built for B (the port-0 neighbor) advertises `INFINITY` for D. -/
theorem claim_C3_witness :
    alookup exRich.neighbors 0 = some ("B", 1) ∧
    alookup exRich.dv "D" = some (3, some 0) ∧
    alookup (build_poisoned exRich 0 "B" 1) "D" = some INFINITY :=
  ⟨by decide, by decide,
    (claim_C3 exRich 0 "B" 1 "D" 3 (by decide) (by decide) (by decide) (by decide)).2⟩

/-- Counterexample for C4 as stated: the event `link up (0, B, 16)` carries a
non-negative link cost, yet the reachable state holds
`dv["B"] = (INFINITY, some 0)` — an entry of cost `INFINITY` with a non-null
`viaPort` (`handle_new_link` installs the cost unconditionally). -/
theorem claim_C4_cex :
    ∃ (es : List Event) (d : Addr) (cur : Nat × Option Port),
      alookup (run "A" 5 es).dv d = some cur ∧ cur.1 = INFINITY ∧ cur.2 ≠ none :=
  ⟨[Event.linkUp 0 "B" INFINITY], "B", (INFINITY, some 0), by decide, rfl, by decide⟩

/-- C4 amended: in every state reachable by the five handlers, provided no
link-up event carries cost exactly `INFINITY`, the forwarding table binds a
destination iff its DV `viaPort` is non-null (and then to the same port), and
every DV entry of cost `INFINITY` has a null `viaPort`. -/
theorem claim_C4 (a : Addr) (hb : Int) (es : List Event)
    (hq : ∀ e ∈ es, evCostNeInf e = true) :
    Consistent (run a hb es) ∧
    (∀ (d : Addr) (cur : Nat × Option Port),
      alookup (run a hb es).dv d = some cur → cur.1 = INFINITY → cur.2 = none) := by
  refine ⟨run_consistent a hb es, ?_⟩
  intro d cur hl hinf
  exact run_infnull a hb es hq (d, cur) (alookup_mem _ _ _ hl) hinf

/-- Witness for the amended C4 at a concrete event sequence. -/
theorem claim_C4_witness :
    (∀ e ∈ [Event.linkUp 0 "B" 1, Event.routing 0 "B" [("B", 0), ("D", 2)],
       Event.linkDown 0], evCostNeInf e = true) ∧
    Consistent (run "A" 5 [Event.linkUp 0 "B" 1,
      Event.routing 0 "B" [("B", 0), ("D", 2)], Event.linkDown 0]) ∧
    (∀ (d : Addr) (cur : Nat × Option Port),
      alookup (run "A" 5 [Event.linkUp 0 "B" 1,
        Event.routing 0 "B" [("B", 0), ("D", 2)], Event.linkDown 0]).dv d = some cur →
      cur.1 = INFINITY → cur.2 = none) := by
  have h := claim_C4 "A" 5 [Event.linkUp 0 "B" 1,
    Event.routing 0 "B" [("B", 0), ("D", 2)], Event.linkDown 0] (by decide)
  exact ⟨by decide, h.1, h.2⟩

/-- C5: in every state reachable by the five handlers, provided no link-up
event attaches the node's own address as endpoint, the node's DV entry for its
own address is exactly `(0, none)`. -/
theorem claim_C5 (a : Addr) (hb : Int) (es : List Event)
    (hq : ∀ e ∈ es, evNotSelf a e = true) :
    alookup (run a hb es).dv a = some (0, none) := by
  rcases run_selfok a hb es hq with ⟨ha, hs⟩
  have h2 := selfok_lookup _ hs
  rw [ha] at h2
  exact h2

/-- Witness for C5 at a concrete event sequence exercising all five handlers. -/
theorem claim_C5_witness :
    (∀ e ∈ [Event.linkUp 0 "B" 1, Event.routing 0 "B" [("B", 0), ("A", 7)],
       Event.data 0 "B", Event.timer 9, Event.linkDown 0],
      evNotSelf "A" e = true) ∧
    alookup (run "A" 5 [Event.linkUp 0 "B" 1,
      Event.routing 0 "B" [("B", 0), ("A", 7)], Event.data 0 "B", Event.timer 9,
      Event.linkDown 0]).dv "A" = some (0, none) :=
  ⟨by decide, claim_C5 "A" 5 [Event.linkUp 0 "B" 1,
    Event.routing 0 "B" [("B", 0), ("A", 7)], Event.data 0 "B", Event.timer 9,
    Event.linkDown 0] (by decide)⟩

/-- Counterexample for C10 as stated: in `exAtInf`
(`dv["B"] = (16, some 0)`, `neighbors[0] = ("C", 1)`), the advertisement
`{"B": 16}` from C gives the unsaturated candidate 17; the source treats
`17 ≠ 16` as a same-port cost change and invalidates B, while the saturating
computation the claim describes caps the candidate at 16 = current cost and
leaves the entry untouched.  The two disagree on the resulting DV table. -/
theorem claim_C10_cex :
    alookup (handle_packet exAtInf 0
      (mkRouting "C" "A" (Content.parsed [("B", CostVal.num 16)]))).1.dv "B" =
      some (INFINITY, none) ∧
    alookup (handle_packet_sat exAtInf 0
      (mkRouting "C" "A" (Content.parsed [("B", CostVal.num 16)]))).1.dv "B" =
      some (INFINITY, some 0) ∧
    (handle_packet exAtInf 0
      (mkRouting "C" "A" (Content.parsed [("B", CostVal.num 16)]))).1.dv ≠
    (handle_packet_sat exAtInf 0
      (mkRouting "C" "A" (Content.parsed [("B", CostVal.num 16)]))).1.dv := by
  refine ⟨by decide, by decide, by decide⟩

/-- C10 amended: the candidate cost is the plain (unsaturated) sum; still, in
every reachable state under link costs at most `INFINITY`, every DV cost and
link cost is at most `INFINITY`, and every advertised value in a built vector
is at most `INFINITY`. -/
theorem claim_C10 (a : Addr) (hb : Int) (es : List Event)
    (hq : ∀ e ∈ es, evCostLeInf e = true) :
    (∀ (d : Addr) (cur : Nat × Option Port),
      alookup (run a hb es).dv d = some cur → cur.1 ≤ INFINITY) ∧
    (∀ (p : Port) (nbv : Addr × Nat),
      alookup (run a hb es).neighbors p = some nbv → nbv.2 ≤ INFINITY) ∧
    (∀ (p : Port) (naddr : Addr) (dcost : Nat),
      alookup (run a hb es).neighbors p = some (naddr, dcost) →
      ∀ y ∈ build_poisoned (run a hb es) p naddr dcost, y.2 ≤ INFINITY) := by
  have hbd := run_bounded a hb es hq
  refine ⟨?_, ?_, ?_⟩
  · intro d cur hl
    exact hbd.1 (d, cur) (alookup_mem _ _ _ hl)
  · intro p nbv hl
    exact hbd.2 (p, nbv) (alookup_mem _ _ _ hl)
  · intro p naddr dcost hl
    apply build_poisoned_bound
    · exact hbd.2 (p, (naddr, dcost)) (alookup_mem _ _ _ hl)
    · exact fun x hx => hbd.1 x hx

/-- Witness for the amended C10 at a concrete event sequence (a link at the
sentinel cost 16 is allowed by the premise). -/
theorem claim_C10_witness :
    (∀ e ∈ [Event.linkUp 0 "B" 16, Event.routing 0 "B" [("D", 2)]],
      evCostLeInf e = true) ∧
    (∀ (d : Addr) (cur : Nat × Option Port),
      alookup (run "A" 5 [Event.linkUp 0 "B" 16,
        Event.routing 0 "B" [("D", 2)]]).dv d = some cur → cur.1 ≤ INFINITY) :=
  ⟨by decide, (claim_C10 "A" 5 [Event.linkUp 0 "B" 16,
    Event.routing 0 "B" [("D", 2)]] (by decide)).1⟩

/-- Counterexample for C2 as stated: in `exHighCost`
(`dv["B"] = (20, some 0)` from an earlier high-cost link,
`neighbors[0] = ("C", 1)`), the advertisement `{"B": 15}` on port 0 yields
candidate `1 + 15 = 16 ≥ INFINITY`, differing from the current cost 20 and
routed via the same port; the claim prescribes invalidation to
`(INFINITY, none)` with a broadcast, but the source takes the
strictly-better branch (`16 < 20`), fails its `< INFINITY` guard, and leaves
the entry untouched, sending nothing. -/
theorem claim_C2_cex :
    alookup exHighCost.dv "B" = some (20, some 0) ∧
    alookup exHighCost.neighbors 0 = some ("C", 1) ∧
    INFINITY ≤ 1 + 15 ∧ (1 + 15 : Nat) ≠ 20 ∧
    alookup (handle_packet exHighCost 0
      (mkRouting "C" "A" (Content.parsed [("B", CostVal.num 15)]))).1.dv "B" =
      some (20, some 0) ∧
    alookup (handle_packet exHighCost 0
      (mkRouting "C" "A" (Content.parsed [("B", CostVal.num 15)]))).1.dv "B" ≠
      some (INFINITY, none) ∧
    (handle_packet exHighCost 0
      (mkRouting "C" "A" (Content.parsed [("B", CostVal.num 15)]))).2 = [] := by
  refine ⟨by decide, by decide, by decide, by decide, by decide, by decide, by decide⟩

/-- C2 amended: same as the claim under the additional premise that the
current cost is at most `INFINITY` (true of every state reachable without
link costs above the sentinel).  If `c + adv < INFINITY` the entry is updated
to `(c + adv, P)` and marked changed; if `c + adv ≥ INFINITY` the entry is set
to `(INFINITY, none)`, the forwarding entry is removed, the alternate-path
search runs over all links other than `P` picking the strict minimum
candidate, installs it only when below `INFINITY`, and the table is marked
changed. -/
theorem claim_C2 (s : NodeState) (ch : Bool) (port : Port) (naddr : Addr) (c : Nat)
    (dest : Addr) (adv : Nat) (cur : Nat)
    (hnb : alookup s.neighbors port = some (naddr, c))
    (hdv : alookup s.dv dest = some (cur, some port))
    (hcur : cur ≤ INFINITY)
    (hne : c + adv ≠ cur)
    (hwf : CacheWF s.neighbor_dvs) :
    (c + adv < INFINITY →
      processPair port (s, ch) (dest, CostVal.num adv) =
        Except.ok (installRoute s dest (c + adv) port, true)) ∧
    (INFINITY ≤ c + adv →
      ∃ bc bpo, findAlt s.neighbors s.neighbor_dvs dest (some port) =
          Except.ok (bc, bpo) ∧
        processPair port (s, ch) (dest, CostVal.num adv) =
          Except.ok ((match bpo with
                      | some bp => installRoute (invalidateDest s dest) dest bc bp
                      | none => invalidateDest s dest), true) ∧
        alookup (invalidateDest s dest).dv dest = some (INFINITY, none) ∧
        alookup (invalidateDest s dest).forwarding_table dest = none ∧
        (∀ cd ∈ candCosts s.neighbors s.neighbor_dvs dest (some port), bc ≤ cd.1) ∧
        (bpo = none → bc = INFINITY) ∧
        (∀ bp, bpo = some bp → bc < INFINITY ∧
          (bc, bp) ∈ candCosts s.neighbors s.neighbor_dvs dest (some port))) := by
  constructor
  · intro hinf
    by_cases hlt : c + adv < cur
    · exact relaxInstall s ch port naddr c dest adv hnb
        (Or.inr ⟨(cur, some port), hdv, hlt⟩) hinf
    · have hinf2 : ¬ INFINITY ≤ c + adv := not_le.mpr hinf
      simp [processPair, hnb, hdv, hlt, hne, hinf2, pure, Except.pure]
  · intro hinf2
    have hnlt : ¬ c + adv < cur := by
      intro hlt
      exact absurd (lt_of_lt_of_le hlt hcur) (not_lt.mpr hinf2)
    rcases findAlt_ok_of_wf s.neighbors s.neighbor_dvs dest (some port) hwf with ⟨r, hfa⟩
    obtain ⟨bc, bpo⟩ := r
    have hspec := findAlt_spec s.neighbors s.neighbor_dvs dest (some port) (bc, bpo) hfa
    have hfa2 : findAlt (invalidateDest s dest).neighbors
        (invalidateDest s dest).neighbor_dvs dest (some port) = Except.ok (bc, bpo) := hfa
    refine ⟨bc, bpo, hfa, ?_, ?_, ?_, hspec.1, hspec.2.1, hspec.2.2⟩
    · cases bpo with
      | some bp =>
        simp [processPair, hnb, hdv, hnlt, hne, hinf2, hfa2, pure, Except.pure]
      | none =>
        simp [processPair, hnb, hdv, hnlt, hne, hinf2, hfa2, pure, Except.pure]
    · exact alookup_aset_self s.dv dest (INFINITY, none)
    · exact alookup_aerase_self s.forwarding_table dest

/-- Witness for the amended C2: in `exRich` an advertisement `{"D": 16}` from
B on port 0 invalidates D (candidate 17) and the alternate search through C
reinstalls it at `(6, some 1)`. -/
theorem claim_C2_witness :
    alookup exRich.dv "D" = some (3, some 0) ∧
    (∃ bc bpo, findAlt exRich.neighbors exRich.neighbor_dvs "D" (some 0) =
        Except.ok (bc, bpo) ∧
      processPair 0 (exRich, false) ("D", CostVal.num 16) =
        Except.ok ((match bpo with
                    | some bp => installRoute (invalidateDest exRich "D") "D" bc bp
                    | none => invalidateDest exRich "D"), true) ∧
      alookup (invalidateDest exRich "D").dv "D" = some (INFINITY, none) ∧
      alookup (invalidateDest exRich "D").forwarding_table "D" = none ∧
      (∀ cd ∈ candCosts exRich.neighbors exRich.neighbor_dvs "D" (some 0), bc ≤ cd.1) ∧
      (bpo = none → bc = INFINITY) ∧
      (∀ bp, bpo = some bp → bc < INFINITY ∧
        (bc, bp) ∈ candCosts exRich.neighbors exRich.neighbor_dvs "D" (some 0))) :=
  ⟨by decide, (claim_C2 exRich false 0 "B" 1 "D" 16 3 (by decide) (by decide)
    (by decide) (by decide) (by decide)).2 (by decide)⟩

/-- Counterexample for C7 as stated: in `exLinkB` the entry for B is
`(1, some 0)`; a new link to B on port 1 at the worse cost 5 neither makes B
new nor improves the cost, yet `handle_new_link` overwrites the entry to
`(5, some 1)` (the source installs unconditionally, lines 101-102). -/
theorem claim_C7_cex :
    alookup exLinkB.dv "B" = some (1, some 0) ∧
    ¬ 5 < 1 ∧
    alookup (handle_new_link exLinkB 1 "B" 5).1.dv "B" = some (5, some 1) ∧
    alookup (handle_new_link exLinkB 1 "B" 5).1.dv "B" ≠ alookup exLinkB.dv "B" := by
  refine ⟨by decide, by decide, by decide, by decide⟩

/-- C7 amended: on a link-up event the DV entry and forwarding entry for the
endpoint are always overwritten to `(cost, port)` — unconditionally, whether
or not the direct cost improves; the link is recorded; the emitted messages
are the broadcast to all neighbors followed by a direct full-vector send to
the new neighbor. -/
theorem claim_C7 (s : NodeState) (port : Port) (ep : Addr) (cost : Nat) :
    alookup (handle_new_link s port ep cost).1.dv ep = some (cost, some port) ∧
    alookup (handle_new_link s port ep cost).1.forwarding_table ep = some port ∧
    alookup (handle_new_link s port ep cost).1.neighbors port = some (ep, cost) ∧
    (handle_new_link s port ep cost).2 =
      broadcast_dv (handle_new_link s port ep cost).1 ++
        send_dv (handle_new_link s port ep cost).1 port ∧
    send_dv (handle_new_link s port ep cost).1 port =
      [Msg.dvUpdate port ep
        (build_poisoned (handle_new_link s port ep cost).1 port ep cost)] := by
  have hnb : alookup (handle_new_link s port ep cost).1.neighbors port =
      some (ep, cost) := alookup_aset_self s.neighbors port (ep, cost)
  refine ⟨?_, ?_, hnb, rfl, ?_⟩
  · exact alookup_aset_self s.dv ep (cost, some port)
  · exact alookup_aset_self s.forwarding_table ep port
  · simp [send_dv, hnb]

/-- Counterexample for C8 as stated: content that parses to `{"D": <non-number>}`
is caught by the handler's `except`, but only after line 34 has already
overwritten the neighbor cache — so node state is not left unchanged. -/
theorem claim_C8_cex :
    alookup exLinkB.neighbor_dvs "B" = none ∧
    alookup (handle_packet exLinkB 0
      (mkRouting "B" "A" (Content.parsed [("D", CostVal.bad)]))).1.neighbor_dvs "B" =
      some [("D", CostVal.bad)] ∧
    (handle_packet exLinkB 0
      (mkRouting "B" "A" (Content.parsed [("D", CostVal.bad)]))).1 ≠ exLinkB := by
  refine ⟨by decide, by decide, by decide⟩

theorem processPairs_append :
    ∀ (l1 l2 : List (Addr × CostVal)) (port : Port) (acc : NodeState × Bool),
    processPairs port (l1 ++ l2) acc =
      (if (processPairs port l1 acc).2.2 = true
       then processPairs port l2
         ((processPairs port l1 acc).1, (processPairs port l1 acc).2.1)
       else processPairs port l1 acc) := by
  intro l1
  induction l1 with
  | nil =>
    intro l2 port acc
    simp [processPairs]
  | cons pr l1t ih =>
    intro l2 port acc
    cases hp : processPair port acc pr with
    | ok acc2 =>
      show processPairs port (pr :: (l1t ++ l2)) acc = _
      simp only [processPairs, hp]
      exact ih l2 port acc2
    | error acc2 =>
      show processPairs port (pr :: (l1t ++ l2)) acc = _
      simp only [processPairs, hp]
      simp

theorem processPairs_bad_head (port : Port) (d : Addr) (rest : List (Addr × CostVal))
    (acc : NodeState × Bool) (nbv : Addr × Nat)
    (hnb : alookup acc.1.neighbors port = some nbv) :
    processPairs port ((d, CostVal.bad) :: rest) acc = (acc.1, acc.2, false) := by
  have hone : processPair port acc (d, CostVal.bad) = Except.error acc := by
    simp [processPair, hnb, throw, throwThe, MonadExceptOf.throw]
  simp only [processPairs, hone]

/-- C8 amended: processing a malformed routing update never crashes (the
handler is a total function returning a successor state).  Content
`json.loads` rejects leaves the state unchanged and sends nothing.  Content
that parses but holds a non-numeric cost at any position sends nothing, and
the resulting state is exactly the state reached by caching the parsed
content and then processing the pairs before the first non-numeric cost — so
the neighbor cache is overwritten and any DV updates from pairs before the
failing one persist, while nothing after the failing pair runs and no
broadcast is triggered. -/
theorem claim_C8 :
    (∀ (s : NodeState) (port : Port) (pkt : Packet),
      pkt.is_traceroute = false → pkt.content = Content.unparseable →
      handle_packet s port pkt = (s, [])) ∧
    (∀ (s : NodeState) (port : Port) (src dst d : Addr)
       (good rest : List (Addr × CostVal)) (nbv : Addr × Nat),
      alookup s.neighbors port = some nbv →
      handle_packet s port (mkRouting src dst
          (Content.parsed (good ++ (d, CostVal.bad) :: rest))) =
        ((processPairs port good
            ({ s with neighbor_dvs := aset s.neighbor_dvs src (good ++ (d, CostVal.bad) :: rest) },
             false)).1, []) ∧
      alookup (processPairs port good
          ({ s with neighbor_dvs := aset s.neighbor_dvs src (good ++ (d, CostVal.bad) :: rest) },
           false)).1.neighbor_dvs src = some (good ++ (d, CostVal.bad) :: rest)) := by
  constructor
  · intro s port pkt htr hc
    obtain ⟨tr, sa, da, co⟩ := pkt
    simp only at htr hc
    subst htr
    subst hc
    rfl
  · intro s port src dst d good rest nbv hnb
    have hnb0 : alookup ({ s with neighbor_dvs := aset s.neighbor_dvs src (good ++ (d, CostVal.bad) :: rest) } : NodeState).neighbors port = some nbv := hnb
    have hfr := processPairs_frame good port
      ({ s with neighbor_dvs := aset s.neighbor_dvs src (good ++ (d, CostVal.bad) :: rest) },
       false)
    have hp : processPairs port (good ++ (d, CostVal.bad) :: rest)
        ({ s with neighbor_dvs := aset s.neighbor_dvs src (good ++ (d, CostVal.bad) :: rest) },
         false) =
        ((processPairs port good
            ({ s with neighbor_dvs := aset s.neighbor_dvs src (good ++ (d, CostVal.bad) :: rest) },
             false)).1,
         (processPairs port good
            ({ s with neighbor_dvs := aset s.neighbor_dvs src (good ++ (d, CostVal.bad) :: rest) },
             false)).2.1, false) := by
      rw [processPairs_append]
      by_cases hok : (processPairs port good
          ({ s with neighbor_dvs := aset s.neighbor_dvs src (good ++ (d, CostVal.bad) :: rest) },
           false)).2.2 = true
      · rw [if_pos hok]
        apply processPairs_bad_head port d rest _ nbv
        rw [hfr.2.1]
        exact hnb0
      · rw [if_neg hok]
        generalize hg : processPairs port good
            ({ s with neighbor_dvs := aset s.neighbor_dvs src (good ++ (d, CostVal.bad) :: rest) },
             false) = g
        rw [hg] at hok
        obtain ⟨st, chb, okb⟩ := g
        cases okb
        · rfl
        · exact absurd rfl hok
    have h2 := handle_packet_parsed s port src dst (good ++ (d, CostVal.bad) :: rest) _ _ _ hp
    refine ⟨by simpa using h2, ?_⟩
    rw [hfr.2.2]
    exact alookup_aset_self s.neighbor_dvs src (good ++ (d, CostVal.bad) :: rest)

/-- Witness for the amended C8 at a concrete input with the non-numeric cost
in second position: the first pair installs `dv["E"] = (3, some 0)`, which
persists; the cache holds the full parsed content; nothing is sent. -/
theorem claim_C8_witness :
    alookup exLinkB.neighbors 0 = some ("B", 1) ∧
    handle_packet exLinkB 0 (mkRouting "B" "A"
        (Content.parsed [("E", CostVal.num 2), ("D", CostVal.bad)])) =
      ((processPairs 0 [("E", CostVal.num 2)]
          ({ exLinkB with neighbor_dvs := aset exLinkB.neighbor_dvs "B" [("E", CostVal.num 2), ("D", CostVal.bad)] },
           false)).1, []) ∧
    alookup (handle_packet exLinkB 0 (mkRouting "B" "A"
        (Content.parsed [("E", CostVal.num 2), ("D", CostVal.bad)]))).1.dv "E" =
      some (3, some 0) ∧
    alookup (handle_packet exLinkB 0 (mkRouting "B" "A"
        (Content.parsed [("E", CostVal.num 2), ("D", CostVal.bad)]))).1.neighbor_dvs "B" =
      some [("E", CostVal.num 2), ("D", CostVal.bad)] := by
  have h := (claim_C8.2 exLinkB 0 "B" "A" "D" [("E", CostVal.num 2)] [] ("B", 1)
    (by decide))
  exact ⟨by decide, h.1, by decide, by decide⟩

/-- Counterexample for C9 as stated: a well-formed update arriving on the
unknown port 7 changes node state — the neighbor cache is overwritten before
the port check (line 34 precedes line 39). -/
theorem claim_C9_cex :
    alookup exLinkB.neighbors 7 = none ∧
    alookup exLinkB.neighbor_dvs "Z" = none ∧
    alookup (handle_packet exLinkB 7
      (mkRouting "Z" "A" (Content.parsed [("D", CostVal.num 3)]))).1.neighbor_dvs "Z" =
      some [("D", CostVal.num 3)] ∧
    (handle_packet exLinkB 7
      (mkRouting "Z" "A" (Content.parsed [("D", CostVal.num 3)]))).1 ≠ exLinkB := by
  refine ⟨by decide, by decide, by decide, by decide⟩

/-- C9 amended: a routing update on a port with no known link leaves the DV
table, forwarding table and link table unchanged and sends nothing; the only
state change is that the cached advertisement for the sender's address is
overwritten with the received vector. -/
theorem claim_C9 (s : NodeState) (port : Port) (src dst : Addr)
    (pairs : List (Addr × CostVal))
    (hnb : alookup s.neighbors port = none) :
    handle_packet s port (mkRouting src dst (Content.parsed pairs)) =
      ({ s with neighbor_dvs := aset s.neighbor_dvs src pairs }, []) := by
  have hnb2 : alookup ({ s with neighbor_dvs := aset s.neighbor_dvs src pairs } : NodeState).neighbors port = none := hnb
  have hp : ∀ (ps : List (Addr × CostVal)) (acc : NodeState × Bool),
      alookup acc.1.neighbors port = none →
      processPairs port ps acc = (acc.1, acc.2, true) := by
    intro ps
    induction ps with
    | nil => exact fun acc _ => rfl
    | cons pr rest ih =>
      intro acc hacc
      have hone : processPair port acc pr = Except.ok acc := by
        simp [processPair, hacc, pure, Except.pure]
      simp only [processPairs, hone]
      exact ih acc hacc
  have h2 := handle_packet_parsed s port src dst pairs _ _ _
    (hp pairs ({ s with neighbor_dvs := aset s.neighbor_dvs src pairs }, false) hnb2)
  simpa using h2

/-- Witness for the amended C9 at a concrete input. -/
theorem claim_C9_witness :
    alookup exLinkB.neighbors 7 = none ∧
    handle_packet exLinkB 7 (mkRouting "Z" "A"
        (Content.parsed [("D", CostVal.num 3)])) =
      ({ exLinkB with neighbor_dvs := aset exLinkB.neighbor_dvs "Z" [("D", CostVal.num 3)] }, []) :=
  ⟨by decide, claim_C9 exLinkB 7 "Z" "A" [("D", CostVal.num 3)] (by decide)⟩

theorem cacheWF_aerase (cache : List (Addr × List (Addr × CostVal))) (k : Addr)
    (h : CacheWF cache) : CacheWF (aerase cache k) :=
  fun x hx => h x (mem_aerase _ _ _ hx)

theorem foldl_invalidate_notmem :
    ∀ (l : List Addr) (s : NodeState) (d : Addr), d ∉ l →
    alookup (l.foldl invalidateDest s).dv d = alookup s.dv d ∧
    alookup (l.foldl invalidateDest s).forwarding_table d =
      alookup s.forwarding_table d := by
  intro l
  induction l with
  | nil => exact fun s d _ => ⟨rfl, rfl⟩
  | cons e rest ih =>
    intro s d hd
    have hde : e ≠ d := fun hc => hd (hc ▸ List.mem_cons_self _ _)
    have hdr : d ∉ rest := fun hc => hd (List.mem_cons_of_mem _ hc)
    rcases ih (invalidateDest s e) d hdr with ⟨h1, h2⟩
    refine ⟨h1.trans ?_, h2.trans ?_⟩
    · exact alookup_aset_ne s.dv e d (INFINITY, none) hde
    · exact alookup_aerase_ne s.forwarding_table e d (fun hc => hde hc.symm)

theorem foldl_invalidate_mem :
    ∀ (l : List Addr) (s : NodeState) (d : Addr), d ∈ l → l.Nodup →
    alookup (l.foldl invalidateDest s).dv d = some (INFINITY, none) ∧
    alookup (l.foldl invalidateDest s).forwarding_table d = none := by
  intro l
  induction l with
  | nil =>
    intro s d hd
    simp at hd
  | cons e rest ih =>
    intro s d hd hnd
    have hnd2 := List.nodup_cons.mp hnd
    by_cases hde : d = e
    · subst hde
      have hdr : d ∉ rest := hnd2.1
      rcases foldl_invalidate_notmem rest (invalidateDest s d) d hdr with ⟨h1, h2⟩
      refine ⟨h1.trans ?_, h2.trans ?_⟩
      · exact alookup_aset_self s.dv d (INFINITY, none)
      · exact alookup_aerase_self s.forwarding_table d
    · have hdr : d ∈ rest := by
        rcases List.mem_cons.mp hd with h | h
        · exact absurd h hde
        · exact h
      exact ih (invalidateDest s e) d hdr hnd2.2

theorem invalidList_sublist_keys (port : Port) :
    ∀ (l : List (Addr × Nat × Option Port)),
    (l.filterMap (fun x => if x.2.2 = some port then some x.1 else none)).Sublist
      (l.map Prod.fst) := by
  intro l
  induction l with
  | nil => exact List.Sublist.refl _
  | cons hd t ih =>
    by_cases h : hd.2.2 = some port
    · simp only [List.filterMap_cons, List.map_cons, h, if_pos rfl]
      exact List.Sublist.cons₂ _ ih
    · simp only [List.filterMap_cons, List.map_cons, if_neg h]
      exact List.Sublist.cons _ ih

theorem invalidList_nodup (s : NodeState) (port : Port)
    (hnd : (s.dv.map Prod.fst).Nodup) : (invalidList s port).Nodup :=
  (invalidList_sublist_keys port s.dv).nodup hnd

theorem mem_invalidList_of_lookup (s : NodeState) (port : Port) (dest : Addr) (cur : Nat)
    (h : alookup s.dv dest = some (cur, some port)) : dest ∈ invalidList s port := by
  apply List.mem_filterMap.mpr
  refine ⟨(dest, cur, some port), alookup_mem _ _ _ h, ?_⟩
  simp

theorem recomputeAll_preserve :
    ∀ (l : List Addr) (acc : NodeState × Bool) (d : Addr), d ∉ l →
    alookup (recomputeAll l acc).1.dv d = alookup acc.1.dv d ∧
    alookup (recomputeAll l acc).1.forwarding_table d =
      alookup acc.1.forwarding_table d := by
  intro l
  induction l with
  | nil => exact fun acc d _ => ⟨rfl, rfl⟩
  | cons e rest ih =>
    intro acc d hd
    have hde : e ≠ d := fun hc => hd (hc ▸ List.mem_cons_self _ _)
    have hdr : d ∉ rest := fun hc => hd (List.mem_cons_of_mem _ hc)
    cases hfa : findAlt acc.1.neighbors acc.1.neighbor_dvs e none with
    | error er =>
      simp [recomputeAll, hfa]
    | ok r =>
      obtain ⟨bc, bpo⟩ := r
      cases bpo with
      | some bp =>
        simp only [recomputeAll, hfa]
        rcases ih (installRoute acc.1 e bc bp, true) d hdr with ⟨h1, h2⟩
        refine ⟨h1.trans ?_, h2.trans ?_⟩
        · exact alookup_aset_ne acc.1.dv e d (bc, some bp) hde
        · exact alookup_aset_ne acc.1.forwarding_table e d bp hde
      | none =>
        simp only [recomputeAll, hfa]
        exact ih acc d hdr

theorem recomputeAll_changed :
    ∀ (l : List Addr) (acc : NodeState × Bool), acc.2 = true →
    (recomputeAll l acc).2.1 = true := by
  intro l
  induction l with
  | nil => exact fun acc h => h
  | cons e rest ih =>
    intro acc h
    cases hfa : findAlt acc.1.neighbors acc.1.neighbor_dvs e none with
    | error er =>
      simp only [recomputeAll, hfa]
      exact h
    | ok r =>
      obtain ⟨bc, bpo⟩ := r
      cases bpo with
      | some bp =>
        simp only [recomputeAll, hfa]
        exact ih _ rfl
      | none =>
        simp only [recomputeAll, hfa]
        exact ih acc h

theorem recomputeAll_ok_of_wf :
    ∀ (l : List Addr) (acc : NodeState × Bool), CacheWF acc.1.neighbor_dvs →
    (recomputeAll l acc).2.2 = true := by
  intro l
  induction l with
  | nil => exact fun acc _ => rfl
  | cons e rest ih =>
    intro acc hwf
    rcases findAlt_ok_of_wf acc.1.neighbors acc.1.neighbor_dvs e none hwf with ⟨r, hfa⟩
    obtain ⟨bc, bpo⟩ := r
    cases bpo with
    | some bp =>
      simp only [recomputeAll, hfa]
      exact ih (installRoute acc.1 e bc bp, true) hwf
    | none =>
      simp only [recomputeAll, hfa]
      exact ih acc hwf

theorem recomputeAll_results :
    ∀ (l : List Addr) (acc : NodeState × Bool), l.Nodup →
    CacheWF acc.1.neighbor_dvs →
    ∀ d ∈ l,
    ∃ bc bpo, findAlt acc.1.neighbors acc.1.neighbor_dvs d none = Except.ok (bc, bpo) ∧
      ((bpo = none ∧
        alookup (recomputeAll l acc).1.dv d = alookup acc.1.dv d ∧
        alookup (recomputeAll l acc).1.forwarding_table d =
          alookup acc.1.forwarding_table d) ∨
       (∃ bp, bpo = some bp ∧
        alookup (recomputeAll l acc).1.dv d = some (bc, some bp) ∧
        alookup (recomputeAll l acc).1.forwarding_table d = some bp)) := by
  intro l
  induction l with
  | nil =>
    intro acc _ _ d hd
    simp at hd
  | cons e rest ih =>
    intro acc hnd hwf d hd
    have hnd2 := List.nodup_cons.mp hnd
    rcases findAlt_ok_of_wf acc.1.neighbors acc.1.neighbor_dvs e none hwf with ⟨r, hfa⟩
    obtain ⟨bc, bpo⟩ := r
    by_cases hde : d = e
    · subst hde
      refine ⟨bc, bpo, hfa, ?_⟩
      cases bpo with
      | none =>
        left
        refine ⟨rfl, ?_, ?_⟩
        · simp only [recomputeAll, hfa]
          exact (recomputeAll_preserve rest acc d hnd2.1).1
        · simp only [recomputeAll, hfa]
          exact (recomputeAll_preserve rest acc d hnd2.1).2
      | some bp =>
        right
        refine ⟨bp, rfl, ?_, ?_⟩
        · simp only [recomputeAll, hfa]
          exact ((recomputeAll_preserve rest (installRoute acc.1 d bc bp, true) d
            hnd2.1).1).trans (alookup_aset_self acc.1.dv d (bc, some bp))
        · simp only [recomputeAll, hfa]
          exact ((recomputeAll_preserve rest (installRoute acc.1 d bc bp, true) d
            hnd2.1).2).trans (alookup_aset_self acc.1.forwarding_table d bp)
    · have hdr : d ∈ rest := by
        rcases List.mem_cons.mp hd with h | h
        · exact absurd h hde
        · exact h
      cases bpo with
      | none =>
        have hres := ih acc hnd2.2 hwf d hdr
        rcases hres with ⟨bc2, bpo2, hfa2, hcase⟩
        refine ⟨bc2, bpo2, hfa2, ?_⟩
        simp only [recomputeAll, hfa]
        exact hcase
      | some bp =>
        have hwf2 : CacheWF (installRoute acc.1 e bc bp, true).1.neighbor_dvs := hwf
        have hres := ih (installRoute acc.1 e bc bp, true) hnd2.2 hwf2 d hdr
        rcases hres with ⟨bc2, bpo2, hfa2, hcase⟩
        have hfa3 : findAlt acc.1.neighbors acc.1.neighbor_dvs d none =
            Except.ok (bc2, bpo2) := hfa2
        refine ⟨bc2, bpo2, hfa3, ?_⟩
        simp only [recomputeAll, hfa]
        rcases hcase with ⟨hno, h1, h2⟩ | ⟨bp2, hsome, h1, h2⟩
        · left
          refine ⟨hno, h1.trans ?_, h2.trans ?_⟩
          · exact alookup_aset_ne acc.1.dv e d (bc, some bp) (fun hc => hde hc.symm)
          · exact alookup_aset_ne acc.1.forwarding_table e d bp (fun hc => hde hc.symm)
        · exact Or.inr ⟨bp2, hsome, h1, h2⟩

theorem handle_remove_link_eq (s : NodeState) (port : Port) (nb : Addr × Nat)
    (hnb : alookup s.neighbors port = some nb) :
    handle_remove_link s port =
      (if (recomputeAll (invalidList (removeLinkPrep s port nb.1) port)
            ((invalidList (removeLinkPrep s port nb.1) port).foldl invalidateDest
              (removeLinkPrep s port nb.1),
             !(invalidList (removeLinkPrep s port nb.1) port).isEmpty)).2.2 &&
          (recomputeAll (invalidList (removeLinkPrep s port nb.1) port)
            ((invalidList (removeLinkPrep s port nb.1) port).foldl invalidateDest
              (removeLinkPrep s port nb.1),
             !(invalidList (removeLinkPrep s port nb.1) port).isEmpty)).2.1
       then ((recomputeAll (invalidList (removeLinkPrep s port nb.1) port)
            ((invalidList (removeLinkPrep s port nb.1) port).foldl invalidateDest
              (removeLinkPrep s port nb.1),
             !(invalidList (removeLinkPrep s port nb.1) port).isEmpty)).1,
             broadcast_dv (recomputeAll (invalidList (removeLinkPrep s port nb.1) port)
            ((invalidList (removeLinkPrep s port nb.1) port).foldl invalidateDest
              (removeLinkPrep s port nb.1),
             !(invalidList (removeLinkPrep s port nb.1) port).isEmpty)).1)
       else ((recomputeAll (invalidList (removeLinkPrep s port nb.1) port)
            ((invalidList (removeLinkPrep s port nb.1) port).foldl invalidateDest
              (removeLinkPrep s port nb.1),
             !(invalidList (removeLinkPrep s port nb.1) port).isEmpty)).1, [])) := by
  simp only [handle_remove_link, hnb]

/-- C6: on a link-down event for a known port, the link and the removed
neighbor's cached advertisement are deleted; every destination routed via the
port is invalidated and then recomputed over the remaining links: it ends at
`(INFINITY, none)` with no forwarding entry when no candidate of finite cost
exists, or at the minimum-cost candidate `(cost, port)` otherwise; and if any
destination was routed via the port, the handler broadcasts. -/
theorem claim_C6 (s : NodeState) (port : Port) (rn : Addr) (rc : Nat)
    (hnb : alookup s.neighbors port = some (rn, rc))
    (hwf : CacheWF s.neighbor_dvs)
    (hnd : (s.dv.map Prod.fst).Nodup) :
    (handle_remove_link s port).1.neighbors = aerase s.neighbors port ∧
    (handle_remove_link s port).1.neighbor_dvs = aerase s.neighbor_dvs rn ∧
    (∀ (dest : Addr) (cur : Nat),
      alookup s.dv dest = some (cur, some port) →
      ∃ bc bpo,
        findAlt (aerase s.neighbors port) (aerase s.neighbor_dvs rn) dest none =
          Except.ok (bc, bpo) ∧
        (bpo = none →
          alookup (handle_remove_link s port).1.dv dest = some (INFINITY, none) ∧
          alookup (handle_remove_link s port).1.forwarding_table dest = none ∧
          ∀ cd ∈ candCosts (aerase s.neighbors port) (aerase s.neighbor_dvs rn)
            dest none, INFINITY ≤ cd.1) ∧
        (∀ bp, bpo = some bp →
          alookup (handle_remove_link s port).1.dv dest = some (bc, some bp) ∧
          alookup (handle_remove_link s port).1.forwarding_table dest = some bp ∧
          bc < INFINITY ∧
          (bc, bp) ∈ candCosts (aerase s.neighbors port) (aerase s.neighbor_dvs rn)
            dest none ∧
          ∀ cd ∈ candCosts (aerase s.neighbors port) (aerase s.neighbor_dvs rn)
            dest none, bc ≤ cd.1)) ∧
    ((∃ (dest : Addr) (cur : Nat), alookup s.dv dest = some (cur, some port)) →
      (handle_remove_link s port).2 =
        broadcast_dv (handle_remove_link s port).1) := by
  have heq := handle_remove_link_eq s port (rn, rc) hnb
  set L := invalidList (removeLinkPrep s port rn) port with hL
  set S2 := L.foldl invalidateDest (removeLinkPrep s port rn) with hS2
  set R := recomputeAll L (S2, !L.isEmpty) with hR
  have hres1 : (handle_remove_link s port).1 = R.1 := by
    rw [heq]
    exact fst_if_pair _ _ _
  have hnbrs : S2.neighbors = aerase s.neighbors port :=
    (foldl_invalidateDest_frame L (removeLinkPrep s port rn)).2.1
  have hcache : S2.neighbor_dvs = aerase s.neighbor_dvs rn :=
    (foldl_invalidateDest_frame L (removeLinkPrep s port rn)).2.2
  have hwfS2 : CacheWF (S2, !L.isEmpty).1.neighbor_dvs := by
    show CacheWF S2.neighbor_dvs
    rw [hcache]
    exact cacheWF_aerase s.neighbor_dvs rn hwf
  have hndL : L.Nodup := invalidList_nodup (removeLinkPrep s port rn) port hnd
  refine ⟨?_, ?_, ?_, ?_⟩
  · rw [hres1, (recomputeAll_frame L (S2, !L.isEmpty)).2.1]
    exact hnbrs
  · rw [hres1, (recomputeAll_frame L (S2, !L.isEmpty)).2.2]
    exact hcache
  · intro dest cur hdest
    have hmem : dest ∈ L :=
      mem_invalidList_of_lookup (removeLinkPrep s port rn) port dest cur hdest
    rcases recomputeAll_results L (S2, !L.isEmpty) hndL hwfS2 dest hmem with
      ⟨bc, bpo, hfa, hcase⟩
    have hfa2 : findAlt (aerase s.neighbors port) (aerase s.neighbor_dvs rn)
        dest none = Except.ok (bc, bpo) := by
      rw [← hnbrs, ← hcache]
      exact hfa
    have hspec := findAlt_spec (aerase s.neighbors port) (aerase s.neighbor_dvs rn)
      dest none (bc, bpo) hfa2
    have hinv2 := foldl_invalidate_mem L (removeLinkPrep s port rn) dest hmem hndL
    refine ⟨bc, bpo, hfa2, ?_, ?_⟩
    · intro hnone
      rcases hcase with ⟨_, h1, h2⟩ | ⟨bp, hsome, _, _⟩
      · refine ⟨?_, ?_, ?_⟩
        · rw [hres1]
          exact h1.trans hinv2.1
        · rw [hres1]
          exact h2.trans hinv2.2
        · intro cd hcd
          have hbc := hspec.2.1 hnone
          rw [← hbc]
          exact hspec.1 cd hcd
      · rw [hnone] at hsome
        cases hsome
    · intro bp hsome
      rcases hcase with ⟨hno, _, _⟩ | ⟨bp2, hsome2, h1, h2⟩
      · rw [hsome] at hno
        cases hno
      · have hbp : bp2 = bp := by
          rw [hsome] at hsome2
          exact Option.some.inj hsome2.symm
        subst hbp
        refine ⟨?_, ?_, (hspec.2.2 bp2 hsome).1, (hspec.2.2 bp2 hsome).2, hspec.1⟩
        · rw [hres1]
          exact h1
        · rw [hres1]
          exact h2
  · intro hex
    rcases hex with ⟨dest, cur, hdest⟩
    have hmem : dest ∈ L :=
      mem_invalidList_of_lookup (removeLinkPrep s port rn) port dest cur hdest
    have hnil : L ≠ [] := by
      intro hc
      rw [hc] at hmem
      simp at hmem
    have hemp : L.isEmpty = false := by
      cases hLc : L with
      | nil => exact absurd hLc hnil
      | cons a as => rfl
    have hbang : (!L.isEmpty) = true := by
      rw [hemp]
      rfl
    have hch : R.2.1 = true := recomputeAll_changed L (S2, !L.isEmpty) hbang
    have hok : R.2.2 = true := recomputeAll_ok_of_wf L (S2, !L.isEmpty) hwfS2
    rw [heq]
    show (if (R.2.2 && R.2.1) = true then (R.1, broadcast_dv R.1) else (R.1, [])).2 =
      broadcast_dv (if (R.2.2 && R.2.1) = true then (R.1, broadcast_dv R.1)
        else (R.1, [])).1
    rw [hok, hch]
    rfl

/-- Witness for C6: removing the link to B in `exRich` invalidates D (which
was routed via port 0) and the alternate search through C's cached
advertisement reinstalls D at cost 6 via port 1. -/
theorem claim_C6_witness :
    alookup exRich.neighbors 0 = some ("B", 1) ∧
    alookup exRich.dv "D" = some (3, some 0) ∧
    (handle_remove_link exRich 0).1.neighbors = aerase exRich.neighbors 0 ∧
    (∃ bc bpo,
      findAlt (aerase exRich.neighbors 0) (aerase exRich.neighbor_dvs "B") "D" none =
        Except.ok (bc, bpo) ∧
      (bpo = none →
        alookup (handle_remove_link exRich 0).1.dv "D" = some (INFINITY, none) ∧
        alookup (handle_remove_link exRich 0).1.forwarding_table "D" = none ∧
        ∀ cd ∈ candCosts (aerase exRich.neighbors 0) (aerase exRich.neighbor_dvs "B")
          "D" none, INFINITY ≤ cd.1) ∧
      (∀ bp, bpo = some bp →
        alookup (handle_remove_link exRich 0).1.dv "D" = some (bc, some bp) ∧
        alookup (handle_remove_link exRich 0).1.forwarding_table "D" = some bp ∧
        bc < INFINITY ∧
        (bc, bp) ∈ candCosts (aerase exRich.neighbors 0) (aerase exRich.neighbor_dvs "B")
          "D" none ∧
        ∀ cd ∈ candCosts (aerase exRich.neighbors 0) (aerase exRich.neighbor_dvs "B")
          "D" none, bc ≤ cd.1)) :=
  ⟨by decide, by decide,
   (claim_C6 exRich 0 "B" 1 (by decide) (by decide) (by decide)).1,
   (claim_C6 exRich 0 "B" 1 (by decide) (by decide) (by decide)).2.2.1 "D" 3 (by decide)⟩
